import Mathlib

/-!
Verification of the go-openapispec-generator repository.

This file shallowly embeds the analyzer and generator of the repository
(main.go, internal/analyzer/{analyzer,extract,utils}.go,
internal/generator/{generator,validator,remover,convert,models}.go and the
helper/updater files) and proves or refutes the frozen claims about it.

Go strings are embedded as `List Char` (the inputs of interest are ASCII, so
byte-wise and rune-wise processing coincide); Go maps are embedded as
association lists with update-or-append insertion, which preserves the
content semantics of map assignment while fixing one enumeration order.
Where a claim is about behaviour under different map-enumeration orders the
embedding quantifies over permutations of the materialized list.
-/

namespace OpenapiGen

/-- Go strings, embedded character-wise. -/
abbrev Str := List Char

/-- ASCII uppercase letter test, the comparison 'A' <= c && c <= 'Z' on
code points (the source only manipulates ASCII names). -/
def chIsUpper (c : Char) : Bool := 65 ≤ c.toNat && c.toNat ≤ 90

/-- ASCII lowercase letter test, 'a' <= c && c <= 'z'. -/
def chIsLower (c : Char) : Bool := 97 ≤ c.toNat && c.toNat ≤ 122

/-- ASCII digit test, '0' <= c && c <= '9'. -/
def chIsDigit (c : Char) : Bool := 48 ≤ c.toNat && c.toNat ≤ 57

/-- ASCII letter test. -/
def chIsAlpha (c : Char) : Bool := chIsUpper c || chIsLower c

/-- Lowercase letter or digit, the character class of the generator's
snake-case regular expression. -/
def chIsLowDig (c : Char) : Bool := chIsLower c || chIsDigit c

/-- Identifier-continuation character class of the path-parameter regular
expression in convertPathFormat. -/
def chIsAlnumU (c : Char) : Bool := chIsAlpha c || chIsDigit c || c == '_'

/-- Character class kept by cleanSchemaName (the complement of the removed
class). -/
def chIsIdent (c : Char) : Bool := chIsAlpha c || chIsDigit c || c == '_'

/-- ASCII ToLower on one character, as strings.ToLower acts on ASCII. -/
def lowCh (c : Char) : Char :=
  if chIsUpper c then Char.ofNat (c.toNat + 32) else c

/-- strings.ToLower, restricted to ASCII. -/
def lowerStr (s : Str) : Str := s.map lowCh

/-- Go whitespace test used by strings.TrimSpace (ASCII fragment). -/
def chIsSpace (c : Char) : Bool :=
  c == ' ' || c == '\t' || c == '\n' || c == '\r'

/-- strings.TrimSpace (ASCII fragment). -/
def trimSpace (s : Str) : Str :=
  ((s.dropWhile chIsSpace).reverse.dropWhile chIsSpace).reverse

/-- strings.HasPrefix p-as-second-argument: does s start with p. -/
def strStarts : Str → Str → Bool
  | [], _ => true
  | _ :: _, [] => false
  | p :: ps, c :: cs => p == c && strStarts ps cs

/-- strings.TrimPrefix: drop p from the front of s when it is a prefix,
otherwise return s unchanged. -/
def dropStart (p s : Str) : Str :=
  if strStarts p s then s.drop p.length else s

/-- strings.Contains: does hay contain needle as a contiguous substring. -/
def strHas (n : Str) : Str → Bool
  | [] => n.isEmpty
  | c :: t => strStarts n (c :: t) || strHas n t

/-- strings.EqualFold, restricted to ASCII case folding. -/
def lowerEq (a b : Str) : Bool := lowerStr a == lowerStr b

/-- Index of the first occurrence of a character, strings.Index for a
one-character separator. -/
def idxOf (c : Char) : Str → Option Nat
  | [] => none
  | d :: rest => if d == c then some 0 else (idxOf c rest).map (· + 1)

/-- strings.Split on a one-character separator (always returns at least one
piece, like the Go function). -/
def splitCh (c : Char) : Str → List Str
  | [] => [[]]
  | d :: rest =>
    if d == c then [] :: splitCh c rest
    else match splitCh c rest with
         | [] => [[d]]
         | p :: ps => (d :: p) :: ps

/-- The substring of s after the last '.', strings.LastIndex followed by the
slice taken in cleanTypeName; returns s itself when there is no dot. -/
def afterLastDot (s : Str) : Str :=
  (s.reverse.takeWhile (fun c => !(c == '.'))).reverse

/-- strings.ReplaceAll(s, star, empty): remove every asterisk. -/
def stripStars (s : Str) : Str := s.filter (fun c => !(c == '*'))

/-- Set-membership test on a list of strings, the embedding of a Go
map-to-bool used as a set. -/
def memS (l : List Str) (s : Str) : Bool := l.any (fun x => x == s)

/-- Association-list lookup, the embedding of a Go map read. -/
def lookupA {α : Type} : List (Str × α) → Str → Option α
  | [], _ => none
  | (k, v) :: rest, q => if k == q then some v else lookupA rest q

/-- Association-list insert with update-or-append semantics, the embedding
of a Go map assignment. -/
def insertA {α : Type} : List (Str × α) → Str → α → List (Str × α)
  | [], k, v => [(k, v)]
  | (k0, v0) :: rest, k, v =>
    if k0 == k then (k0, v) :: rest else (k0, v0) :: insertA rest k v

/-- Key-presence test on the association list, a Go comma-ok map read. -/
def hasKeyA {α : Type} (l : List (Str × α)) (k : Str) : Bool :=
  (lookupA l k).isSome

theorem lookupA_insertA {α : Type} (l : List (Str × α)) (k k2 : Str) (v : α) :
    lookupA (insertA l k v) k2 = if k == k2 then some v else lookupA l k2 := by
  induction l with
  | nil =>
    by_cases h : k = k2
    · subst h; simp [insertA, lookupA]
    · simp [insertA, lookupA, beq_iff_eq, h]
  | cons hd t ih =>
    obtain ⟨k0, v0⟩ := hd
    simp only [insertA]
    by_cases h0 : k0 = k
    · subst h0
      simp only [beq_self_eq_true, if_true]
      by_cases h2 : k0 = k2
      · subst h2; simp [lookupA]
      · simp [lookupA, beq_iff_eq, h2]
    · have hne : (k0 == k) = false := by simp [beq_iff_eq, h0]
      simp only [hne, Bool.false_eq_true, if_false, lookupA]
      by_cases h2 : k0 = k2
      · subst h2
        have hnk : ¬ k = k0 := fun hc => h0 hc.symm
        simp [beq_iff_eq, hnk]
      · simp [beq_iff_eq, h2, ih]

theorem hasKeyA_insertA {α : Type} (l : List (Str × α)) (k k2 : Str) (v : α) :
    hasKeyA (insertA l k v) k2 = ((k == k2) || hasKeyA l k2) := by
  by_cases h : k == k2 <;> simp [hasKeyA, lookupA_insertA, h]

/-! ## Shared name cleaning

internal/analyzer (main.go region, cleanTypeName) and internal/generator
(utils region, cleanTypeName) contain two textually identical functions:
remove all asterisks, then keep only what follows the last dot.  They are
embedded once. -/

/-- cleanTypeName: strip pointer markers and package qualifiers. -/
def cleanTypeName (t : Str) : Str := afterLastDot (stripStars t)

/-! ## The two snake-case transforms (claim C10)

internal/analyzer/extract.go toSnakeCase builds the output rune by rune and
inserts an underscore before every uppercase letter at a non-initial
position; internal/generator/convert.go toSnakeCase instead applies the
regular expression ([a-z0-9])([A-Z]) -> $1_$2 once, globally.  Both then
lowercase, and both short-circuit on strings that are already lowercase and
contain an underscore. -/

/-- Body of the analyzer's character loop for the non-initial positions:
an underscore is written before every uppercase character. -/
def anaRest : Str → Str
  | [] => []
  | c :: rest => (if chIsUpper c then ['_', c] else [c]) ++ anaRest rest

/-- The analyzer's builder loop: position 0 is copied verbatim, later
positions go through anaRest. -/
def anaSnakeCore : Str → Str
  | [] => []
  | c :: rest => c :: anaRest rest

/-- internal/analyzer/extract.go toSnakeCase. -/
def toSnakeCaseAna (s : Str) : Str :=
  if strHas ['_'] s && (lowerStr s == s) then s
  else lowerStr (anaSnakeCore s)

/-- Global, non-overlapping replacement of ([a-z0-9])([A-Z]) by $1_$2.
Because the second character of a match is uppercase it can never start the
next match, so the scan may resume right after the matched pair. -/
def regexSnake : Str → Str
  | [] => []
  | [c] => [c]
  | a :: b :: rest =>
    if chIsLowDig a && chIsUpper b then a :: '_' :: b :: regexSnake rest
    else a :: regexSnake (b :: rest)

/-- internal/generator/convert.go toSnakeCase. -/
def toSnakeCaseGen (s : Str) : Str :=
  if strHas ['_'] s && (lowerStr s == s) then s
  else lowerStr (regexSnake s)

/-! ## JSON tag extraction (internal/analyzer/extract.go) -/

/-- Capture of [^"]* followed by a closing quote: the characters before the
first double quote, or none when no quote follows. -/
def tilQuote : Str → Option Str
  | [] => none
  | c :: rest => if c == '"' then some [] else (tilQuote rest).map (c :: ·)

/-- extractJSONTag: leftmost match of the regular expression
json:"([^"]*)" in the raw struct-tag text, returning the capture, or the
empty string when there is no match. -/
def extractJSONTag : Str → Str
  | [] => []
  | c :: rest =>
    if strStarts ('j' :: 's' :: 'o' :: 'n' :: ':' :: '"' :: []) (c :: rest) then
      match tilQuote ((c :: rest).drop 6) with
      | some cap => cap
      | none => extractJSONTag rest
    else extractJSONTag rest

/-! ## Go AST expressions and type strings (internal/analyzer) -/

/-- The fragment of go/ast expression shapes inspected by
getTypeStringWithArrays; every other shape falls into the last case of the
source switch. -/
inductive GoExpr where
  | ident (name : Str)
  | sel (x : GoExpr) (s : Str)
  | star (x : GoExpr)
  | array (elt : GoExpr)
  | mapT (key val : GoExpr)
  | iface
  | basicLit (v : Str)
  | otherExpr
  deriving Repr, DecidableEq

/-- getTypeStringWithArrays (main.go region of the analyzer). -/
def getTypeStringWithArrays : GoExpr → Str
  | .ident n => n
  | .sel x s =>
    let pkg := getTypeStringWithArrays x
    if pkg == "time".data && s == "Time".data then "time.Time".data
    else if pkg == "sdk".data then s
    else pkg ++ ('.' :: s)
  | .star x => '*' :: getTypeStringWithArrays x
  | .array e => '[' :: ']' :: getTypeStringWithArrays e
  | .mapT k v =>
    "map[".data ++ getTypeStringWithArrays k ++ (']' :: getTypeStringWithArrays v)
  | .iface => "interface{}".data
  | .basicLit v => v
  | .otherExpr => "interface{}".data

/-! ## Analyzer data model (internal/analyzer, models region) -/

/-- Opaque Go interface values (field examples, parameter defaults); the
source stores strings, ints and bools in them. -/
inductive GoVal where
  | vstr (s : Str)
  | vint (n : Int)
  | vbool (b : Bool)
  deriving Repr, DecidableEq

/-- analyzer.Field. -/
structure Field where
  name : Str
  type : Str
  jsonTag : Str
  originalType : Str
  required : Bool
  description : Str
  exampleV : Option GoVal
  deriving Repr, DecidableEq

/-- analyzer.Model. -/
structure Model where
  name : Str
  pkg : Str
  fields : List Field
  description : Str
  deriving Repr, DecidableEq

/-- analyzer.Parameter; the Go field In is embedded as inLoc. -/
structure AParam where
  name : Str
  inLoc : Str
  required : Bool
  type : Str
  exampleV : Str
  description : Str
  dflt : Option GoVal
  enum : List Str
  deriving Repr, DecidableEq

/-- analyzer.Route. -/
structure Route where
  path : Str
  method : Str
  handler : Str
  middleware : List Str
  requestBody : Option Model
  response : Option Model
  parameters : List AParam
  tags : List Str
  deriving Repr, DecidableEq

/-! ## Struct declaration parsing (parseStruct in the analyzer's parser) -/

/-- One go/ast struct field: its name list (empty for an embedded field),
type expression, optional raw tag text and optional doc text. -/
structure GoField where
  names : List Str
  type : GoExpr
  tag : Option Str
  doc : Option Str
  deriving Repr, DecidableEq

/-- One go/ast struct type. -/
structure GoStructType where
  fields : List GoField
  deriving Repr, DecidableEq

/-- ast.Ident.IsExported: the first rune is uppercase (ASCII fragment). -/
def exported : Str → Bool
  | [] => false
  | c :: _ => chIsUpper c

/-- The Field records contributed by one go/ast field, exactly as the
body of the parseStruct loop builds them. -/
def parseStructField (f : GoField) : List Field :=
  if f.names.isEmpty then
    -- embedded field: name and type are both the type string; the tag is
    -- consulted but Required stays at its zero value without a json tag
    let ft := getTypeStringWithArrays f.type
    let base : Field :=
      { name := ft, type := ft, jsonTag := [], originalType := ft
        required := false, description := [], exampleV := none }
    match f.tag with
    | some tagv =>
      let jt := extractJSONTag tagv
      if jt.isEmpty then [base]
      else [{ base with jsonTag := jt
                        required := !(strHas "omitempty".data jt) }]
    | none => [base]
  else
    f.names.filterMap (fun nm =>
      if !(exported nm) then none
      else
        let ft := getTypeStringWithArrays f.type
        let base : Field :=
          { name := nm, type := ft, jsonTag := [], originalType := ft
            required := false
            description := (f.doc.map trimSpace).getD []
            exampleV := none }
        match f.tag with
        | some tagv =>
          let jt := extractJSONTag tagv
          if jt.isEmpty then some base
          else some { base with jsonTag := jt
                                required := !(strHas "omitempty".data jt) }
        | none => some { base with required := true })

/-- parseStruct (main.go region of the analyzer). -/
def parseStruct (sdkPackage : Str) (name : Str) (st : GoStructType)
    (doc : Option Str) : Model :=
  { name := name
    pkg := sdkPackage
    fields := st.fields.flatMap parseStructField
    description := (doc.map trimSpace).getD [] }

/-! ## SDK model registration (parseSDKFile / parseSDKModels, claims C5, C6) -/

/-- One top-level struct type declaration found by ast.Inspect. -/
structure GoTypeDecl where
  name : Str
  st : GoStructType
  doc : Option Str
  deriving Repr, DecidableEq

/-- The insertion performed for each declaration in parseSDKFile: parse the
struct, clean its name, and assign into the shared model table.  The Go map
assignment is unconditional. -/
def sdkRegister (sdkPackage : Str) (models : List (Str × Model))
    (d : GoTypeDecl) : List (Str × Model) :=
  let m := parseStruct sdkPackage d.name d.st d.doc
  let cn := cleanTypeName m.name
  insertA models cn { m with name := cn }

/-- The model table produced by running parseSDKFile over a list of
declarations (the flattening, in walk order, of the declarations of all
non-test .go files under the sdk directory). -/
def processSDKDecls (sdkPackage : Str) (ds : List GoTypeDecl)
    (init : List (Str × Model)) : List (Str × Model) :=
  ds.foldl (sdkRegister sdkPackage) init

/-- parseSDKModels walks filepath.Join(projectPath, sdk).  When that
directory does not exist, filepath.Walk invokes the callback once with a
non-nil lstat error and the callback returns it, so the walk itself returns
the error.  The filesystem is embedded as an optional list of files (one
declaration list per file, in lexical walk order): none models the missing
directory. -/
def parseSDKModels (sdkPackage : Str)
    (sdkDir : Option (List (List GoTypeDecl))) :
    Except Str (List (Str × Model)) :=
  match sdkDir with
  | none => .error "lstat sdk: no such file or directory".data
  | some files =>
    .ok (files.foldl (fun acc f => processSDKDecls sdkPackage f acc) [])

/-- The model-extraction phase of Analyzer.Analyze: on a parseSDKModels
error the method returns the wrapped error at once (the later route pass is
only reached on success, and claim C6 concerns the failure path). -/
def analyzeModels (sdkPackage : Str)
    (sdkDir : Option (List (List GoTypeDecl))) :
    Except Str (List (Str × Model)) :=
  match parseSDKModels sdkPackage sdkDir with
  | .error e => .error ("failed to parse SDK models: ".data ++ e)
  | .ok ms => .ok ms

/-! ## Path parameters (internal/analyzer/extract.go) and response-type
inference (internal/analyzer/analyzer.go) -/

/-- Capture of the regular expression :([^/]+): the characters after a
colon up to the next slash. -/
def tilSlash (s : Str) : Str := s.takeWhile (fun c => !(c == '/'))

/-- The scan of extractPathParameters, fueled so that the recursion is
structural (the fuel, one more than the remaining length, never runs out
because every step consumes at least one character). -/
def eppF : Nat → Str → List AParam
  | 0, _ => []
  | _ + 1, [] => []
  | f + 1, ':' :: rest =>
    let tok := tilSlash rest
    if tok.isEmpty then eppF f rest
    else
      { name := tok, inLoc := "path".data, required := true
        type := "string".data, exampleV := [], description := []
        dflt := none, enum := [] } ::
      eppF f (rest.drop tok.length)
  | f + 1, _ :: rest => eppF f rest

/-- extractPathParameters: every :name token of the raw route path becomes
a required string path parameter. -/
def extractPathParameters (s : Str) : List AParam := eppF (s.length + 1) s

/-- The prefix-to-format table of inferResponseTypeFromMethodName, in
source order; an entry (p, before, after) maps a method name p ++ rest with
nonempty rest to before ++ rest ++ after. -/
def respTable : List (Str × Str × Str) :=
  [ ("Get".data, [], "Response".data)
  , ("Fetch".data, [], "Response".data)
  , ("List".data, [], "ListResponse".data)
  , ("Search".data, "Search".data, "Response".data)
  , ("Find".data, [], "Response".data)
  , ("Create".data, [], "Response".data)
  , ("Update".data, [], "Response".data)
  , ("Delete".data, [], "Response".data)
  , ("Save".data, [], "Response".data)
  , ("Parse".data, [], "Response".data)
  , ("Process".data, [], "Response".data)
  , ("Generate".data, [], "Response".data)
  , ("Calculate".data, [], "Response".data)
  , ("Validate".data, [], "ValidationResponse".data)
  , ("Check".data, [], "CheckResponse".data) ]

/-- The table scan: an entry fires only when the prefix matches and the
remainder is nonempty, exactly as the source guards entityName. -/
def respLoop : List (Str × Str × Str) → Str → Option Str
  | [], _ => none
  | (p, b, a) :: rest, m =>
    if strStarts p m && !(dropStart p m).isEmpty then some (b ++ dropStart p m ++ a)
    else respLoop rest m

/-- inferResponseTypeFromMethodName (internal/analyzer/analyzer.go). -/
def inferResponseTypeFromMethodName (m : Str) : Str :=
  (respLoop respTable m).getD (m ++ "Response".data)

/-! ## Generator data model (internal/generator/models.go)

generator.Schema is recursive through a properties map, an items pointer
and the AdditionalProperties interface value; the embedding is a mutual
inductive family.  In every document the generator produces, the
AdditionalProperties interface holds either a bool or a pointer to a
Schema, and every pass preserves that shape, so AProp has exactly those
variants plus unset (nil).  The AllOf/OneOf/AnyOf fields are never
assigned or read anywhere in the repository and are left out. -/

mutual
inductive JSchema where
  | mk (type format ref description : Str) (props : SProps) (items : OSchema)
       (required : List Str) (addl : AProp) (enum : List GoVal)
       (dflt : Option GoVal) (exampleV : Option GoVal)
inductive SProps where
  | nil
  | cons (name : Str) (s : JSchema) (rest : SProps)
inductive OSchema where
  | noSchema
  | someSchema (s : JSchema)
inductive AProp where
  | unset
  | abool (b : Bool)
  | aschema (s : JSchema)
end

/-- Field accessor for the embedded Schema.Type. -/
def JSchema.type : JSchema → Str
  | .mk t _ _ _ _ _ _ _ _ _ _ => t

/-- Field accessor for the embedded Schema.Format. -/
def JSchema.format : JSchema → Str
  | .mk _ f _ _ _ _ _ _ _ _ _ => f

/-- Field accessor for the embedded Schema.Ref. -/
def JSchema.ref : JSchema → Str
  | .mk _ _ r _ _ _ _ _ _ _ _ => r

/-- Field accessor for the embedded Schema.Properties. -/
def JSchema.props : JSchema → SProps
  | .mk _ _ _ _ p _ _ _ _ _ _ => p

/-- Field accessor for the embedded Schema.Required. -/
def JSchema.required : JSchema → List Str
  | .mk _ _ _ _ _ _ rq _ _ _ _ => rq

/-- Replace the Enum field, the Go assignment opParam.Schema.Enum = ... . -/
def JSchema.withEnum : JSchema → List GoVal → JSchema
  | .mk t f r d p i rq a _ df ex, e => .mk t f r d p i rq a e df ex

/-- Replace the Default field, the Go assignment
opParam.Schema.Default = ... . -/
def JSchema.withDflt : JSchema → Option GoVal → JSchema
  | .mk t f r d p i rq a e _ ex, df => .mk t f r d p i rq a e df ex

/-- Replace the Example field, the Go assignment schema.Example = ... . -/
def JSchema.withEx : JSchema → Option GoVal → JSchema
  | .mk t f r d p i rq a e df _, ex => .mk t f r d p i rq a e df ex

/-- A Schema zero value with only Type and Description set, the commonest
literal shape in the generator. -/
def primSchema (t d : Str) : JSchema :=
  .mk t [] [] d .nil .noSchema [] .unset [] none none

/-- A Schema zero value with only Type, Format and Description set. -/
def primSchemaF (t f d : Str) : JSchema :=
  .mk t f [] d .nil .noSchema [] .unset [] none none

/-- Schema{Ref: r}: the pure-reference shape. -/
def refSchema (r : Str) : JSchema :=
  .mk [] [] r [] .nil .noSchema [] .unset [] none none

/-- Schema{Type: "object"}: the generic-object fallback of the remover. -/
def objectSchema : JSchema := primSchema "object".data []

/-- Properties lookup (first match; keys are unique in every table the
generator builds). -/
def lookupP : SProps → Str → Option JSchema
  | .nil, _ => none
  | .cons k v rest, q => if k == q then some v else lookupP rest q

/-- Properties insert with Go map assignment semantics. -/
def insertP : SProps → Str → JSchema → SProps
  | .nil, k, v => .cons k v .nil
  | .cons k0 v0 rest, k, v =>
    if k0 == k then .cons k0 v rest else .cons k0 v0 (insertP rest k v)

/-- The remaining generator document structures
(internal/generator/models.go). -/
structure SpecParam where
  name : Str
  inLoc : Str
  description : Str
  required : Bool
  schema : JSchema
  exampleV : Option GoVal

/-- generator.MediaType. -/
structure MediaType where
  schema : JSchema

/-- generator.RequestBody. -/
structure RequestBody where
  description : Str
  content : List (Str × MediaType)
  required : Bool

/-- generator.Response. -/
structure Response where
  description : Str
  content : List (Str × MediaType)

/-- generator.Operation. -/
structure Operation where
  tags : List Str
  summary : Str
  description : Str
  operationId : Str
  parameters : List SpecParam
  requestBody : Option RequestBody
  responses : List (Str × Response)
  security : List (List (Str × List Str))

/-- generator.PathItem; nil operation pointers are none. -/
structure PathItem where
  get : Option Operation
  post : Option Operation
  put : Option Operation
  delete : Option Operation
  patch : Option Operation

/-- generator.SecurityScheme. -/
structure SecurityScheme where
  type : Str
  scheme : Str
  bearerFormat : Str
  description : Str

/-- generator.Info. -/
structure Info where
  title : Str
  description : Str
  version : Str

/-- generator.Server. -/
structure Server where
  url : Str
  description : Str

/-- generator.Tag. -/
structure Tag where
  name : Str
  description : Str

/-- generator.Components. -/
structure Components where
  schemas : List (Str × JSchema)
  securitySchemes : List (Str × SecurityScheme)

/-- generator.OpenAPISpec. -/
structure OpenAPISpec where
  openapi : Str
  info : Info
  servers : List Server
  paths : List (Str × PathItem)
  components : Components
  tags : List Tag

/-- generator.Config. -/
structure GenConfig where
  title : Str
  version : Str
  description : Str
  serverURL : Str

/-! ## Generator utilities (unnamed generator utils file and convert.go) -/

/-- The reference marker "#/components/schemas/". -/
def refPre : Str := "#/components/schemas/".data

/-- cleanSchemaName: strip asterisks and package qualifiers, remove
characters outside [a-zA-Z0-9_], force a leading letter, and default the
empty result. -/
def cleanSchemaName (name : Str) : Str :=
  let c1 := afterLastDot (stripStars name)
  let c2 := c1.filter chIsIdent
  let c3 :=
    if !c2.isEmpty && !(match c2 with | c :: _ => chIsAlpha c | [] => false)
    then "Schema".data ++ c2 else c2
  if c3.isEmpty then "UnknownSchema".data else c3

/-- The builtin-type table of isCustomType, in source order. -/
def builtinTypes : List Str :=
  ["string", "int", "int8", "int16", "int32", "int64", "uint", "uint8",
   "uint16", "uint32", "uint64", "float32", "float64", "bool", "byte",
   "rune", "interface{}", "interface", "any", "time.Time", "error",
   "Time"].map String.data

/-- isCustomType: not a builtin, nonempty, and exported-looking. -/
def isCustomType (t : Str) : Bool :=
  let ct := cleanTypeName t
  if ct.isEmpty then false
  else if memS builtinTypes ct then false
  else match ct with
       | c :: _ => chIsUpper c
       | [] => false

/-- hasAuthMiddleware: some middleware name contains "auth"
case-insensitively. -/
def hasAuthMiddleware (mws : List Str) : Bool :=
  mws.any (fun mw => strHas "auth".data (lowerStr mw))

/-- extractMapValueType: the value-type slice of a map[K]V type string. -/
def extractMapValueType (mapType : Str) : Str :=
  let s := trimSpace (stripStars mapType)
  if !(strStarts "map[".data s) then "interface{}".data
  else
    let rest := s.drop 4
    match idxOf ']' rest with
    | none => "interface{}".data
    | some i =>
      let v := rest.drop (i + 1)
      if v.isEmpty then "interface{}".data else trimSpace v

theorem length_dropWhile_le (p : Char → Bool) (l : Str) :
    (l.dropWhile p).length ≤ l.length := by
  induction l with
  | nil => simp [List.dropWhile]
  | cons c t ih =>
    by_cases h : p c
    · simp only [List.dropWhile, h]
      exact le_trans ih (by simp)
    · simp [List.dropWhile, h]

theorem length_takeWhile_le (p : Char → Bool) (l : Str) :
    (l.takeWhile p).length ≤ l.length := by
  induction l with
  | nil => simp [List.takeWhile]
  | cons c t ih =>
    by_cases h : p c
    · simp only [List.takeWhile, h]
      simpa using ih
    · simp [List.takeWhile, h]

theorem strStarts_length_le (p s : Str) (h : strStarts p s = true) :
    p.length ≤ s.length := by
  induction p generalizing s with
  | nil => simp
  | cons c t ih =>
    cases s with
    | nil => simp [strStarts] at h
    | cons d u =>
      simp only [strStarts, Bool.and_eq_true] at h
      simpa using ih u h.2

/-- The scanner of the path-conversion regular expression
:([a-zA-Z][a-zA-Z0-9_]*), replacing each match by the braced name; fueled
so that the recursion is structural (the fuel, one more than the remaining
length, never runs out because every step consumes at least one
character). -/
def convGoF : Nat → Str → Str
  | 0, s => s
  | _ + 1, [] => []
  | f + 1, ':' :: c :: rest =>
    if chIsAlpha c then
      '{' :: c :: (rest.takeWhile chIsAlnumU ++
        ('}' :: convGoF f (rest.dropWhile chIsAlnumU)))
    else ':' :: convGoF f (c :: rest)
  | f + 1, c :: rest => c :: convGoF f rest

/-- The whole regular-expression replacement of convertPathFormat. -/
def convGo (s : Str) : Str := convGoF (s.length + 1) s

/-- convertPathFormat (internal/generator/convert.go). -/
def convertPathFormat (p : Str) : Str :=
  let conv := convGo p
  if strStarts "/".data conv then conv else '/' :: conv

/-! ## Schema synthesis (internal/generator/generator.go) -/

theorem stripStars_length_le (s : Str) : (stripStars s).length ≤ s.length :=
  List.length_filter_le _ s

theorem afterLastDot_length_le (s : Str) : (afterLastDot s).length ≤ s.length := by
  unfold afterLastDot
  calc ((s.reverse.takeWhile fun c => !(c == '.')).reverse).length
      = (s.reverse.takeWhile fun c => !(c == '.')).length := List.length_reverse _
    _ ≤ s.reverse.length := length_takeWhile_le _ _
    _ = s.length := List.length_reverse _

theorem cleanTypeName_length_le (s : Str) : (cleanTypeName s).length ≤ s.length :=
  le_trans (afterLastDot_length_le _) (stripStars_length_le _)

/-- The body of generateSchemaFromFieldType, fueled so that the recursion
through array-element types is structural (the fuel, one more than the
type-string length, never runs out because peeling a [] marker shortens the
cleaned string, which is never longer than its source). -/
def gsftF : Nat → Str → JSchema
  | 0, _ => primSchema "object".data []
  | f + 1, fieldType =>
    let ct := cleanTypeName fieldType
    if strStarts "[]".data ct then
      let elT := dropStart "[]".data ct
      let itemSchema := gsftF f elT
      .mk "array".data [] [] [] .nil (.someSchema itemSchema) [] .unset []
        none none
    else
      if ct == "string".data then primSchema "string".data []
      else if ct == "int".data || ct == "int32".data || ct == "int8".data
              || ct == "int16".data then primSchemaF "integer".data "int32".data []
      else if ct == "int64".data then primSchemaF "integer".data "int64".data []
      else if ct == "uint".data || ct == "uint32".data || ct == "uint8".data
              || ct == "uint16".data then primSchemaF "integer".data "int32".data []
      else if ct == "uint64".data then primSchemaF "integer".data "int64".data []
      else if ct == "float32".data then primSchemaF "number".data "float".data []
      else if ct == "float64".data || ct == "float".data then
        primSchemaF "number".data "double".data []
      else if ct == "bool".data || ct == "boolean".data then
        primSchema "boolean".data []
      else if ct == "time.Time".data || ct == "Time".data then
        primSchemaF "string".data "date-time".data []
      else if ct == "byte".data then primSchemaF "string".data "byte".data []
      else if ct == "rune".data then primSchemaF "integer".data "int32".data []
      else if isCustomType ct then refSchema (refPre ++ cleanSchemaName ct)
      else primSchema "object".data []

/-- generateSchemaFromFieldType: the fallback primitive/reference mapping
used for array elements and map values. -/
def generateSchemaFromFieldType (fieldType : Str) : JSchema :=
  gsftF (fieldType.length + 1) fieldType

/-- The example attachment at the end of generateSchemaFromField, skipped
by the early-returning map and interface branches. -/
def attachExample (f : Field) (s : JSchema) : JSchema :=
  match f.exampleV with
  | some e => s.withEx (some e)
  | none => s

/-- generateSchemaFromField (internal/generator/generator.go). -/
def generateSchemaFromField (f : Field) : JSchema :=
  let typeToCheck := if f.originalType.isEmpty then f.type else f.originalType
  let ct := stripStars typeToCheck
  if strStarts "[]".data ct then
    let elT := cleanTypeName (dropStart "[]".data ct)
    let itemSchema :=
      if isCustomType elT then refSchema (refPre ++ cleanSchemaName elT)
      else generateSchemaFromFieldType elT
    attachExample f
      (.mk "array".data [] [] f.description .nil (.someSchema itemSchema)
        [] .unset [] none none)
  else if strHas "time.Time".data ct || ct == "time.Time".data
          || ct == "Time".data then
    attachExample f (primSchemaF "string".data "date-time".data f.description)
  else if strStarts "map[".data ct then
    -- early return in the source: no example is attached
    let mv := extractMapValueType ct
    if mv == "interface{}".data || mv == "interface".data
        || mv == "any".data then
      .mk "object".data [] [] f.description .nil .noSchema [] (.abool true)
        [] none none
    else if isCustomType mv then
      .mk "object".data [] [] f.description .nil .noSchema []
        (.aschema (refSchema (refPre ++ cleanSchemaName mv))) [] none none
    else
      .mk "object".data [] [] f.description .nil .noSchema []
        (.aschema (generateSchemaFromFieldType mv)) [] none none
  else if ct == "interface{}".data || ct == "interface".data then
    -- early return in the source: no example is attached
    .mk "object".data [] [] f.description .nil .noSchema [] (.abool true)
      [] none none
  else if strHas "string".data ct then
    attachExample f (primSchema "string".data f.description)
  else if strHas "int64".data ct then
    attachExample f (primSchemaF "integer".data "int64".data f.description)
  else if strHas "int32".data ct then
    attachExample f (primSchemaF "integer".data "int32".data f.description)
  else if strHas "int".data ct then
    attachExample f (primSchemaF "integer".data "int32".data f.description)
  else if strHas "float64".data ct then
    attachExample f (primSchemaF "number".data "double".data f.description)
  else if strHas "float32".data ct then
    attachExample f (primSchemaF "number".data "float".data f.description)
  else if strHas "bool".data ct then
    attachExample f (primSchema "boolean".data f.description)
  else
    let crt := cleanTypeName ct
    if isCustomType crt then
      attachExample f
        (.mk [] [] (refPre ++ cleanSchemaName crt) f.description .nil
          .noSchema [] .unset [] none none)
    else attachExample f (primSchema "object".data f.description)

/-- The property key chosen for a field by generateSchemaFromModel: the
first comma-piece of the json tag when usable, else the field name, and a
snake-case transform of the name when there is no tag at all. -/
def fieldKey (f : Field) : Str :=
  if !f.jsonTag.isEmpty then
    match splitCh ',' f.jsonTag with
    | p0 :: _ => if !p0.isEmpty && !(p0 == "-".data) then p0 else f.name
    | [] => f.name
  else toSnakeCaseGen f.name

/-- A field is skipped entirely when its json tag is exactly "-". -/
def fieldKept (f : Field) : Bool := !(f.jsonTag == "-".data)

/-- The loop body of generateSchemaFromModel: a kept field adds its
property (map assignment) and, when required, appends its key to the
required list; a json:"-" field is skipped entirely. -/
def genModelStep (acc : SProps × List Str) (f : Field) : SProps × List Str :=
  if fieldKept f then
    (insertP acc.1 (fieldKey f) (generateSchemaFromField f),
     if f.required then acc.2 ++ [fieldKey f] else acc.2)
  else acc

/-- generateSchemaFromModel (internal/generator/generator.go). -/
def generateSchemaFromModel (m : Model) : JSchema :=
  let built := m.fields.foldl genModelStep (SProps.nil, [])
  .mk "object".data [] [] m.description built.1 .noSchema built.2 .unset
    [] none none

/-! ## Operation generation (generator helper file) -/

/-- generateParameterSchema: semantic parameter type to schema. -/
def generateParameterSchema (p : AParam) : JSchema :=
  if p.type == "integer".data || p.type == "int".data then
    primSchemaF "integer".data "int32".data []
  else if p.type == "int64".data then
    primSchemaF "integer".data "int64".data []
  else if p.type == "number".data || p.type == "float".data
          || p.type == "double".data then
    primSchemaF "number".data "double".data []
  else if p.type == "boolean".data || p.type == "bool".data then
    primSchema "boolean".data []
  else if p.type == "array".data then
    .mk "array".data [] [] [] .nil (.someSchema (primSchema "string".data []))
      [] .unset [] none none
  else primSchema "string".data []

/-- generateOperationID: lowercased verb plus the underscored path. -/
def generateOperationID (r : Route) : Str :=
  let m := lowerStr r.method
  let p0 := convertPathFormat r.path
  let p1 := p0.map (fun c => if c == '/' then '_' else c)
  let p2 := p1.filter (fun c => !(c == '{'))
  let p3 := p2.filter (fun c => !(c == '}'))
  let p4 := p3.map (fun c => if c == '-' then '_' else c)
  let p5 := dropStart ['_'] p4
  m ++ ('_' :: p5)

/-- getActionFromMethod. -/
def getActionFromMethod (m : Str) : Str :=
  if m == "GET".data then "Get".data
  else if m == "POST".data then "Create".data
  else if m == "PUT".data then "Update".data
  else if m == "DELETE".data then "Delete".data
  else if m == "PATCH".data then "Patch".data
  else m

/-- ASCII ToUpper on one character. -/
def upCh (c : Char) : Char :=
  if chIsLower c then Char.ofNat (c.toNat - 32) else c

/-- The word-boundary walk of strings.Title: a character begins a word when
the previous character is a separator (not alphanumeric and not an
underscore). -/
def titleGoAux : Bool → Str → Str
  | _, [] => []
  | prevW, c :: rest =>
    let cw := chIsAlpha c || chIsDigit c || c == '_'
    (if !prevW then upCh c else c) :: titleGoAux cw rest

/-- strings.Title (ASCII fragment). -/
def titleGo (s : Str) : Str := titleGoAux false s

/-- getResourceFromPath: the last path segment that is neither empty nor a
parameter, title-cased. -/
def getResourceFromPath (p : Str) : Str :=
  match (splitCh '/' p).reverse.find? (fun part =>
      !part.isEmpty && !(strStarts [':'] part) && !(strStarts ['{'] part)) with
  | some part => titleGo part
  | none => "Resource".data

/-- generateSummary. -/
def generateSummary (r : Route) : Str :=
  getActionFromMethod r.method ++ (' ' :: getResourceFromPath r.path)

/-- generateDescription. -/
def generateDescription (r : Route) : Str :=
  r.handler ++ " handler for ".data ++ lowerStr r.method ++ (' ' :: r.path)

/-- The fixed tag-description table of generateTagDescription. -/
def tagDescTable : List (Str × Str) :=
  [ ("conversation".data, "Conversation management endpoints".data)
  , ("tenant".data, "Tenant configuration endpoints".data)
  , ("voice".data, "Voice management endpoints".data)
  , ("aimodel".data, "AI model configuration endpoints".data)
  , ("knowledgebase".data, "Knowledge base management endpoints".data)
  , ("user".data, "User authentication endpoints".data)
  , ("upload".data, "File upload endpoints".data)
  , ("whatsapp".data, "WhatsApp integration endpoints".data)
  , ("insights".data, "Analytics and insights endpoints".data)
  , ("campaign".data, "Campaign management endpoints".data)
  , ("contacts".data, "Contact management endpoints".data)
  , ("event".data, "Event management endpoints".data)
  , ("platformproviders".data, "Platform provider configuration endpoints".data)
  , ("toolcall".data, "Tool call management endpoints".data)
  , ("pipeline".data, "Pipeline management endpoints".data)
  , ("documents".data, "Document management endpoints".data)
  , ("twilio".data, "Twilio integration endpoints".data)
  , ("me".data, "User profile endpoints".data)
  , ("sockets".data, "WebSocket endpoints".data) ]

/-- generateTagDescription. -/
def generateTagDescription (t : Str) : Str :=
  match lookupA tagDescTable t with
  | some d => d
  | none => titleGo t ++ " related endpoints".data

/-- The error response attached under status 400 and 500. -/
def errorRefResponse (d : Str) : Response :=
  { description := d
    content := [("application/json".data,
      { schema := refSchema (refPre ++ "ErrorResponse".data) })] }

/-- The per-parameter conversion of generateOperation: route parameter to
operation parameter, with enum values, default and example attached to the
schema when present. -/
def genOpParam (p : AParam) : SpecParam :=
  let s0 := generateParameterSchema p
  let s1 := if !p.enum.isEmpty then s0.withEnum (p.enum.map GoVal.vstr) else s0
  let s2 := match p.dflt with
            | some d => s1.withDflt (some d)
            | none => s1
  { name := p.name, inLoc := p.inLoc, required := p.required
    description := p.description, schema := s2
    exampleV := if !p.exampleV.isEmpty then some (GoVal.vstr p.exampleV)
                else none }

/-- generateOperation (generator helper file). -/
def generateOperation (r : Route) : Operation :=
  let params := r.parameters.map genOpParam
  let rb : Option RequestBody :=
    match r.requestBody with
    | some m =>
      let modelName :=
        if strHas "Request".data m.name || strHas "Body".data m.name then m.name
        else cleanSchemaName m.name
      some { description := "Request body".data, required := true
             content := [("application/json".data,
               { schema := refSchema (refPre ++ modelName) })] }
    | none => none
  let resp200 : Response :=
    match r.response with
    | some m =>
      { description := "Successful operation".data
        content := [("application/json".data,
          { schema := refSchema (refPre ++ cleanSchemaName m.name) })] }
    | none => { description := "Successful operation".data, content := [] }
  let resps := insertA (insertA (insertA [] "200".data resp200)
    "400".data (errorRefResponse "Bad request".data))
    "500".data (errorRefResponse "Internal server error".data)
  { tags := r.tags
    summary := generateSummary r
    description := generateDescription r
    operationId := generateOperationID r
    parameters := params
    requestBody := rb
    responses := resps
    security := if hasAuthMiddleware r.middleware
                then [[("bearerAuth".data, [])]] else [] }

/-! ## The Generate loop (internal/generator/generator.go) -/

/-- The zero PathItem: all five operation pointers nil. -/
def emptyPathItem : PathItem := ⟨none, none, none, none, none⟩

/-- The verb switch of Generate: methods outside the five cases leave the
path item unchanged (but it is still stored back). -/
def setVerb (lm : Str) (op : Operation) (pi : PathItem) : PathItem :=
  if lm == "get".data then { pi with get := some op }
  else if lm == "post".data then { pi with post := some op }
  else if lm == "put".data then { pi with put := some op }
  else if lm == "delete".data then { pi with delete := some op }
  else if lm == "patch".data then { pi with patch := some op }
  else pi

/-- The duplicate-detection key of Generate: raw method, a colon, and the
converted path. -/
def routeKey (r : Route) : Str :=
  r.method ++ (':' :: convertPathFormat r.path)

/-- The loop state of Generate: the processedPaths set, the paths map, and
the tag set (materialized in insertion order). -/
structure GenState where
  processed : List Str
  paths : List (Str × PathItem)
  tagSet : List Str

/-- One iteration of the route loop of Generate. -/
def routeStep (st : GenState) (r : Route) : GenState :=
  let oap := convertPathFormat r.path
  let key := routeKey r
  if memS st.processed key then st
  else
    let pi := (lookupA st.paths oap).getD emptyPathItem
    let op := generateOperation r
    let tags2 := r.tags.foldl
      (fun acc t => if memS acc t then acc else acc ++ [t]) st.tagSet
    let pi2 := setVerb (lowerStr r.method) op pi
    { processed := st.processed ++ [key]
      paths := insertA st.paths oap pi2
      tagSet := tags2 }

/-- The whole route loop. -/
def routeFold (rs : List Route) : GenState :=
  rs.foldl routeStep ⟨[], [], []⟩

/-- The baseline ErrorResponse schema installed when no model claimed the
name. -/
def errorResponseSchema : JSchema :=
  .mk "object".data [] [] []
    (.cons "error".data (primSchema "string".data "Error message".data)
      (.cons "code".data (primSchema "integer".data "Error code".data) .nil))
    .noSchema [] .unset [] none none

/-- The baseline StandardResponse schema. -/
def standardResponseSchema : JSchema :=
  .mk "object".data [] [] []
    (.cons "success".data
      (primSchema "boolean".data
        "Indicates if the operation was successful".data)
      (.cons "message".data
        (primSchema "string".data "Response message".data)
        (.cons "data".data
          (.mk "object".data [] [] "Response data".data .nil .noSchema []
            (.abool true) [] none none) .nil)))
    .noSchema [] .unset [] none none

/-- The components-schema table built by the model loop of Generate plus
the two baseline schemas; the list order materializes the map enumeration
order of analysis.Models. -/
def buildSchemas (models : List Model) : List (Str × JSchema) :=
  let s0 := models.foldl (fun acc m =>
    insertA acc (cleanSchemaName m.name) (generateSchemaFromModel m)) []
  let s1 := if hasKeyA s0 "ErrorResponse".data then s0
            else insertA s0 "ErrorResponse".data errorResponseSchema
  if hasKeyA s1 "StandardResponse".data then s1
  else insertA s1 "StandardResponse".data standardResponseSchema

/-- The draft document assembled by Generate before ValidateAndCleanSpec
runs. -/
def draftSpec (cfg : GenConfig) (models : List Model) (routes : List Route) :
    OpenAPISpec :=
  let st := routeFold routes
  { openapi := "3.0.3".data
    info := { title := cfg.title, description := cfg.description
              version := cfg.version }
    servers := [{ url := cfg.serverURL
                  description := "Development server".data }]
    paths := st.paths
    components :=
      { schemas := buildSchemas models
        securitySchemes := [("bearerAuth".data,
          { type := "http".data, scheme := "bearer".data
            bearerFormat := "JWT".data
            description := "Authorization header using Bearer token".data })] }
    tags := st.tagSet.map (fun t =>
      { name := t, description := generateTagDescription t }) }

/-! ## Reference updating (generator updater file) -/

/-- updateReference: rewrite one reference through the rename mapping,
cleaning the name even on a mapping miss. -/
def updateReference (ref : Str) (m : List (Str × Str)) : Str :=
  if ref.isEmpty then []
  else if !(strStarts refPre ref) then ref
  else
    let old := dropStart refPre ref
    match lookupA m old with
    | some nn => refPre ++ nn
    | none => refPre ++ cleanSchemaName old

mutual
/-- updateSchemaReferences. -/
def updSchema (m : List (Str × Str)) : JSchema → JSchema
  | .mk t f r d props items rq addl e df ex =>
    .mk t f (if !r.isEmpty then updateReference r m else r) d
      (updProps m props) (updOSch m items) rq (updAddl m addl) e df ex
/-- updateSchemaReferences on the properties map. -/
def updProps (m : List (Str × Str)) : SProps → SProps
  | .nil => .nil
  | .cons n s rest => .cons n (updSchema m s) (updProps m rest)
/-- updateSchemaReferences on the items pointer. -/
def updOSch (m : List (Str × Str)) : OSchema → OSchema
  | .noSchema => .noSchema
  | .someSchema s => .someSchema (updSchema m s)
/-- updateSchemaReferences on the AdditionalProperties value: only the
schema-pointer variant is rewritten. -/
def updAddl (m : List (Str × Str)) : AProp → AProp
  | .aschema s => .aschema (updSchema m s)
  | x => x
end

/-- updateOperationReferences. -/
def updOp (m : List (Str × Str)) (op : Operation) : Operation :=
  { op with
    requestBody := op.requestBody.map (fun rb =>
      { rb with content := rb.content.map (fun c =>
          (c.1, { schema := updSchema m c.2.schema })) })
    responses := op.responses.map (fun pr =>
      (pr.1, { pr.2 with content := pr.2.content.map (fun c =>
        (c.1, { schema := updSchema m c.2.schema })) })) }

/-- The per-path-item part of updateAllReferences. -/
def updPathItem (m : List (Str × Str)) (pi : PathItem) : PathItem :=
  { get := pi.get.map (updOp m), post := pi.post.map (updOp m)
    put := pi.put.map (updOp m), delete := pi.delete.map (updOp m)
    patch := pi.patch.map (updOp m) }

/-- updateAllReferences. -/
def updateAllReferences (spec : OpenAPISpec) (m : List (Str × Str)) :
    OpenAPISpec :=
  { spec with
    paths := spec.paths.map (fun p => (p.1, updPathItem m p.2))
    components := { spec.components with
      schemas := spec.components.schemas.map (fun p =>
        (p.1, updSchema m p.2)) } }

/-- cleanAllSchemaNames: rename every schema to its cleaned name, record
the old-to-new mapping, and rewrite all references through it. -/
def cleanAllSchemaNames (spec : OpenAPISpec) : OpenAPISpec :=
  let pairs := spec.components.schemas
  let cleaned := pairs.foldl (fun acc p =>
    insertA acc (cleanSchemaName p.1) p.2) []
  let o2n := pairs.foldl (fun acc p =>
    insertA acc p.1 (cleanSchemaName p.1)) []
  updateAllReferences
    { spec with components := { spec.components with schemas := cleaned } }
    o2n

/-! ## Schema cleaning (generator utils file, validateSchemas) -/

/-- cleanPropertyName. -/
def cleanPropertyName (n : Str) : Str :=
  if n.isEmpty then "property".data else toSnakeCaseGen n

/-- The case-insensitive fallback scan of cleanReference over the schema
table; the embedding fixes the map enumeration order to the list order. -/
def findFold (all : List (Str × JSchema)) (cn : Str) : Option Str :=
  (all.find? (fun p => lowerEq p.1 cn)).map (fun p => p.1)

/-- cleanReference: resolve the last path segment against the schema table,
falling back to a case-insensitive match, and dropping the reference (empty
result) when both fail. -/
def cleanReference (ref : Str) (all : List (Str × JSchema)) : Str :=
  if ref.isEmpty then []
  else
    let parts := splitCh '/' ref
    match parts.getLast? with
    | none => []
    | some schemaName =>
      let cn := cleanSchemaName schemaName
      let cn2 := if hasKeyA all cn then cn
                 else match findFold all cn with
                      | some k => k
                      | none => cn
      if hasKeyA all cn2 then refPre ++ cn2 else []

mutual
/-- cleanSchema: a resolvable reference collapses the schema to a pure
reference; an unresolvable one is dropped (Ref emptied) and cleaning
proceeds on the remaining fields. -/
def cleanSchemaF (all : List (Str × JSchema)) : JSchema → JSchema
  | .mk t f r d props items rq addl e df ex =>
    if !r.isEmpty then
      let nr := cleanReference r all
      if !nr.isEmpty then refSchema nr
      else
        .mk t f [] d (cleanPropsF all SProps.nil props) (cleanOSch all items)
          rq (cleanAddl all addl) e df ex
    else
      .mk t f r d (cleanPropsF all SProps.nil props) (cleanOSch all items)
        rq (cleanAddl all addl) e df ex
/-- cleanSchema rebuilds the properties map under cleaned property names
(Go map insertion while iterating the old map). -/
def cleanPropsF (all : List (Str × JSchema)) (acc : SProps) : SProps → SProps
  | .nil => acc
  | .cons n s rest =>
    cleanPropsF all (insertP acc (cleanPropertyName n) (cleanSchemaF all s))
      rest
/-- cleanSchema on the items pointer. -/
def cleanOSch (all : List (Str × JSchema)) : OSchema → OSchema
  | .noSchema => .noSchema
  | .someSchema s => .someSchema (cleanSchemaF all s)
/-- cleanSchema on AdditionalProperties (schema-pointer variant only). -/
def cleanAddl (all : List (Str × JSchema)) : AProp → AProp
  | .aschema s => .aschema (cleanSchemaF all s)
  | x => x
end

/-- validateSchemas: rebuild the schema table with every value cleaned
against the original table. -/
def validateSchemas (spec : OpenAPISpec) : OpenAPISpec :=
  { spec with components := { spec.components with
      schemas := spec.components.schemas.foldl (fun acc p =>
        insertA acc p.1 (cleanSchemaF spec.components.schemas p.2)) [] } }

/-! ## Path-parameter reconciliation (internal/generator/validator.go) -/

/-- The scan for a closing brace: the characters before the first one and
the remainder after it. -/
def tilClose : Str → Option (Str × Str)
  | [] => none
  | c :: rest =>
    if c == '}' then some ([], rest)
    else (tilClose rest).map (fun pr => (c :: pr.1, pr.2))

theorem tilClose_length {s t r : Str} (h : tilClose s = some (t, r)) :
    r.length < s.length := by
  induction s generalizing t r with
  | nil => simp [tilClose] at h
  | cons c rest ih =>
    by_cases hc : c == '}'
    · simp only [tilClose, hc, if_true, Option.some.injEq] at h
      obtain ⟨h1, h2⟩ := Prod.mk.injEq .. ▸ h
      subst h2
      simp
    · simp only [tilClose, hc, Bool.false_eq_true, if_false,
        Option.map_eq_some'] at h
      obtain ⟨⟨t2, r2⟩, hrec, heq⟩ := h
      obtain ⟨h1, h2⟩ := Prod.mk.injEq .. ▸ heq
      subst h2
      have := ih hrec
      simp only [List.length_cons]
      omega

/-- The scan for brace tokens, fueled so that the recursion is structural
(the fuel, one more than the remaining length, never runs out because
every step consumes at least one character). -/
def braceTokensF : Nat → Str → List Str
  | 0, _ => []
  | _ + 1, [] => []
  | f + 1, '{' :: rest =>
    match tilClose rest with
    | some (tok, rest2) =>
      if tok.isEmpty then braceTokensF f rest else tok :: braceTokensF f rest2
    | none => braceTokensF f rest
  | f + 1, _ :: rest => braceTokensF f rest

/-- The non-overlapping leftmost matches of \x7b([^\x7d]+)\x7d: the list of
captured path-parameter names of an OpenAPI path. -/
def braceTokens (s : Str) : List Str := braceTokensF (s.length + 1) s

/-- First-occurrence deduplication: the key set of the Go expectedParams
map, materialized in insertion order. -/
def dedupKeep (l : List Str) : List Str :=
  l.foldl (fun acc t => if memS acc t then acc else acc ++ [t]) []

/-- The parameter injected for an undeclared path token. -/
def mkPathParam (nm : Str) : SpecParam :=
  { name := nm, inLoc := "path".data, description := [], required := true
    schema := primSchema "string".data [], exampleV := none }

/-- The keep-filter of validateOperationParameters: a path-located
parameter survives only when its name is an expected token; all other
parameters survive. -/
def vopKeep (expected : List Str) (p : SpecParam) : Bool :=
  if p.inLoc == "path".data then memS expected p.name else true

/-- The injection step of validateOperationParameters: append a required
string path parameter when no path parameter of that name is present. -/
def vopInject (acc : List SpecParam) (nm : Str) : List SpecParam :=
  if acc.any (fun p => p.inLoc == "path".data && p.name == nm) then acc
  else acc ++ [mkPathParam nm]

/-- validateOperationParameters: keep declared path parameters only when
their name is an expected token, keep non-path parameters untouched, and
inject a required string parameter for every missing token. -/
def validateOperationParameters (toks : List Str) (op : Operation) :
    Operation :=
  let expected := dedupKeep toks
  { op with parameters :=
      expected.foldl vopInject (op.parameters.filter (vopKeep expected)) }

/-- validatePathParameters for one path item: extract the brace tokens of
the path and reconcile each operation. -/
def validatePathItem (path : Str) (pi : PathItem) : PathItem :=
  let toks := braceTokens path
  { get := pi.get.map (validateOperationParameters toks)
    post := pi.post.map (validateOperationParameters toks)
    put := pi.put.map (validateOperationParameters toks)
    delete := pi.delete.map (validateOperationParameters toks)
    patch := pi.patch.map (validateOperationParameters toks) }

/-- validatePaths: the path strings themselves are returned unchanged. -/
def validatePaths (spec : OpenAPISpec) : OpenAPISpec :=
  { spec with paths := spec.paths.map (fun p =>
      (p.1, validatePathItem p.1 p.2)) }

/-! ## Invalid-reference removal (internal/generator/remover.go) -/

mutual
/-- removeInvalidRefsFromSchema: a schema whose reference target is not a
valid schema name becomes the generic object schema; otherwise cleaning
recurses into properties, items and additional properties. -/
def remSchema (valid : List Str) : JSchema → JSchema
  | .mk t f r d props items rq addl e df ex =>
    if !r.isEmpty && !(memS valid (dropStart refPre r)) then objectSchema
    else .mk t f r d (remProps valid props) (remOSch valid items) rq
      (remAddl valid addl) e df ex
/-- removeInvalidRefsFromSchema on the properties map. -/
def remProps (valid : List Str) : SProps → SProps
  | .nil => .nil
  | .cons n s rest => .cons n (remSchema valid s) (remProps valid rest)
/-- removeInvalidRefsFromSchema on the items pointer. -/
def remOSch (valid : List Str) : OSchema → OSchema
  | .noSchema => .noSchema
  | .someSchema s => .someSchema (remSchema valid s)
/-- removeInvalidRefsFromSchema on AdditionalProperties (schema-pointer
variant only). -/
def remAddl (valid : List Str) : AProp → AProp
  | .aschema s => .aschema (remSchema valid s)
  | x => x
end

/-- removeInvalidRefsFromOperation. -/
def remOp (valid : List Str) (op : Operation) : Operation :=
  { op with
    requestBody := op.requestBody.map (fun rb =>
      { rb with content := rb.content.map (fun c =>
          (c.1, { schema := remSchema valid c.2.schema })) })
    responses := op.responses.map (fun pr =>
      (pr.1, { pr.2 with content := pr.2.content.map (fun c =>
        (c.1, { schema := remSchema valid c.2.schema })) })) }

/-- removeInvalidReferences on one path item. -/
def remPathItem (valid : List Str) (pi : PathItem) : PathItem :=
  { get := pi.get.map (remOp valid), post := pi.post.map (remOp valid)
    put := pi.put.map (remOp valid), delete := pi.delete.map (remOp valid)
    patch := pi.patch.map (remOp valid) }

/-- removeInvalidReferences: the valid-name set is the schema-table key set
computed before the rewrite; the rewrite changes only values, never keys. -/
def removeInvalidReferences (spec : OpenAPISpec) : OpenAPISpec :=
  let valid := spec.components.schemas.map (fun p => p.1)
  { spec with
    components := { spec.components with
      schemas := spec.components.schemas.map (fun p =>
        (p.1, remSchema valid p.2)) }
    paths := spec.paths.map (fun p => (p.1, remPathItem valid p.2)) }

/-- ValidateAndCleanSpec (internal/generator/validator.go): the four passes
in source order; the validation sub-steps never return a non-nil error, so
the pass always runs to completion. -/
def validateAndCleanSpec (spec : OpenAPISpec) : OpenAPISpec :=
  removeInvalidReferences (validatePaths (validateSchemas
    (cleanAllSchemaNames spec)))

/-- Generate (internal/generator/generator.go): draft assembly followed by
ValidateAndCleanSpec. -/
def Generate (cfg : GenConfig) (models : List Model) (routes : List Route) :
    OpenAPISpec :=
  validateAndCleanSpec (draftSpec cfg models routes)

/-! ## The reference-resolution checker (claim C1)

A reference string resolves when its name part (what follows the
"#/components/schemas/" marker, exactly the slice the remover inspects) is
a key of the components schema table.  The checker visits precisely the
positions the claim enumerates: component schemas with their properties,
items and additional-properties subtrees, and the request-body and response
content of every operation. -/

mutual
/-- All references inside one schema tree resolve against valid. -/
def goodRefsSchema (valid : List Str) : JSchema → Bool
  | .mk _ _ r _ props items _ addl _ _ _ =>
    (r.isEmpty || memS valid (dropStart refPre r)) &&
      goodRefsProps valid props && goodRefsOSch valid items &&
      goodRefsAddl valid addl
/-- goodRefsSchema over the properties map. -/
def goodRefsProps (valid : List Str) : SProps → Bool
  | .nil => true
  | .cons _ s rest => goodRefsSchema valid s && goodRefsProps valid rest
/-- goodRefsSchema over the items pointer. -/
def goodRefsOSch (valid : List Str) : OSchema → Bool
  | .noSchema => true
  | .someSchema s => goodRefsSchema valid s
/-- goodRefsSchema over AdditionalProperties. -/
def goodRefsAddl (valid : List Str) : AProp → Bool
  | .aschema s => goodRefsSchema valid s
  | _ => true
end

/-- goodRefsSchema over a content map. -/
def goodRefsContent (valid : List Str) (content : List (Str × MediaType)) :
    Bool :=
  content.all (fun c => goodRefsSchema valid c.2.schema)

/-- All references of one operation (request body and responses) resolve. -/
def goodRefsOp (valid : List Str) (op : Operation) : Bool :=
  (match op.requestBody with
   | some rb => goodRefsContent valid rb.content
   | none => true) &&
  op.responses.all (fun pr => goodRefsContent valid pr.2.content)

/-- goodRefsOp over the five verb slots. -/
def goodRefsPathItem (valid : List Str) (pi : PathItem) : Bool :=
  pi.get.all (goodRefsOp valid) && pi.post.all (goodRefsOp valid) &&
  pi.put.all (goodRefsOp valid) && pi.delete.all (goodRefsOp valid) &&
  pi.patch.all (goodRefsOp valid)

/-- Every reference of the document resolves against the key set of its own
components schema table. -/
def goodRefsSpec (spec : OpenAPISpec) : Bool :=
  let valid := spec.components.schemas.map (fun p => p.1)
  spec.components.schemas.all (fun p => goodRefsSchema valid p.2) &&
  spec.paths.all (fun p => goodRefsPathItem valid p.2)

mutual
theorem remSchema_good (valid : List Str) :
    (s : JSchema) → goodRefsSchema valid (remSchema valid s) = true
  | .mk t f r d props items rq addl e df ex => by
    cases hre : r.isEmpty with
    | true =>
      simp only [remSchema, hre, Bool.not_true, Bool.false_and,
        Bool.false_eq_true, if_false, goodRefsSchema, Bool.true_or,
        Bool.true_and]
      simp [remProps_good valid props, remOSch_good valid items,
        remAddl_good valid addl]
    | false =>
      cases hme : memS valid (dropStart refPre r) with
      | true =>
        simp only [remSchema, hre, hme, Bool.not_false, Bool.not_true,
          Bool.true_and, Bool.false_eq_true, if_false, goodRefsSchema]
        simp [hre, hme, remProps_good valid props, remOSch_good valid items,
          remAddl_good valid addl]
      | false =>
        simp only [remSchema, hre, hme, Bool.not_false, Bool.true_and,
          if_true]
        simp [goodRefsSchema, objectSchema, primSchema, goodRefsProps,
          goodRefsOSch, goodRefsAddl]
theorem remProps_good (valid : List Str) :
    (p : SProps) → goodRefsProps valid (remProps valid p) = true
  | .nil => by simp [remProps, goodRefsProps]
  | .cons n s rest => by
    simp [remProps, goodRefsProps, remSchema_good valid s,
      remProps_good valid rest]
theorem remOSch_good (valid : List Str) :
    (o : OSchema) → goodRefsOSch valid (remOSch valid o) = true
  | .noSchema => by simp [remOSch, goodRefsOSch]
  | .someSchema s => by simp [remOSch, goodRefsOSch, remSchema_good valid s]
theorem remAddl_good (valid : List Str) :
    (a : AProp) → goodRefsAddl valid (remAddl valid a) = true
  | .unset => by simp [remAddl, goodRefsAddl]
  | .abool b => by simp [remAddl, goodRefsAddl]
  | .aschema s => by simp [remAddl, goodRefsAddl, remSchema_good valid s]
end

theorem remOp_good (valid : List Str) (op : Operation) :
    goodRefsOp valid (remOp valid op) = true := by
  unfold remOp goodRefsOp
  simp only [Bool.and_eq_true]
  refine ⟨?_, ?_⟩
  · cases op.requestBody with
    | none => simp
    | some rb =>
      simp only [Option.map_some']
      simp [goodRefsContent, List.all_map, Function.comp,
        remSchema_good valid]
  · simp [goodRefsContent, List.all_map, Function.comp, remSchema_good valid]

theorem remPathItem_good (valid : List Str) (pi : PathItem) :
    goodRefsPathItem valid (remPathItem valid pi) = true := by
  unfold remPathItem goodRefsPathItem
  simp only [Bool.and_eq_true]
  refine ⟨⟨⟨⟨?_, ?_⟩, ?_⟩, ?_⟩, ?_⟩
  · cases pi.get with
    | none => simp
    | some op => simp [remOp_good valid op]
  · cases pi.post with
    | none => simp
    | some op => simp [remOp_good valid op]
  · cases pi.put with
    | none => simp
    | some op => simp [remOp_good valid op]
  · cases pi.delete with
    | none => simp
    | some op => simp [remOp_good valid op]
  · cases pi.patch with
    | none => simp
    | some op => simp [remOp_good valid op]

theorem map_fst_map_val {α β : Type} (l : List (Str × α)) (f : α → β) :
    (l.map (fun p => (p.1, f p.2))).map (fun p => p.1) =
      l.map (fun p => p.1) := by
  induction l with
  | nil => rfl
  | cons h t ih => simp [ih]

theorem removeInvalidReferences_good (spec : OpenAPISpec) :
    goodRefsSpec (removeInvalidReferences spec) = true := by
  unfold removeInvalidReferences goodRefsSpec
  simp only [map_fst_map_val, Bool.and_eq_true]
  refine ⟨?_, ?_⟩
  · simp [List.all_map, Function.comp, remSchema_good]
  · simp [List.all_map, Function.comp, remPathItem_good]

/-- C1: after the reference-integrity pass (ValidateAndCleanSpec, whose
final step is removeInvalidReferences), every reference string occurring
anywhere in the document — component schemas, their properties, items and
additional-properties subtrees, and every operation's request-body and
response content — resolves to a key of the components schema table; in
particular this holds for every document synthesized by Generate, whatever
Analysis (model list and route list) it is given, including analyses with
unresolvable type names. -/
theorem claim_C1_no_dangling_refs :
    (∀ spec : OpenAPISpec, goodRefsSpec (validateAndCleanSpec spec) = true) ∧
    (∀ (cfg : GenConfig) (models : List Model) (routes : List Route),
      goodRefsSpec (Generate cfg models routes) = true) := by
  refine ⟨fun spec => ?_, fun cfg models routes => ?_⟩
  · unfold validateAndCleanSpec
    exact removeInvalidReferences_good _
  · unfold Generate validateAndCleanSpec
    exact removeInvalidReferences_good _

/-! ## Claim C8: the response-type prefix table -/

theorem strStarts_append_self (p s : Str) : strStarts p (p ++ s) = true := by
  induction p with
  | nil => simp [strStarts]
  | cons c t ih => simp [strStarts, ih]

theorem dropStart_append_self (p s : Str) : dropStart p (p ++ s) = s := by
  simp [dropStart, strStarts_append_self, List.drop_left]

theorem strStarts_append_false (p q s : Str)
    (h : strStarts (p.take q.length) q = false) :
    strStarts p (q ++ s) = false := by
  induction p generalizing q with
  | nil => simp [strStarts] at h
  | cons c p2 ih =>
    cases q with
    | nil => simp [strStarts] at h
    | cons d q2 =>
      simp only [List.length_cons, List.take_succ_cons, strStarts,
        Bool.and_eq_false_iff] at h
      simp only [List.cons_append, strStarts, Bool.and_eq_false_iff]
      rcases h with h | h
      · exact Or.inl h
      · exact Or.inr (ih q2 h)

theorem respLoop_none (table : List (Str × Str × Str)) (m : Str)
    (h : ∀ p ∈ table, strStarts p.1 m = false) :
    respLoop table m = none := by
  induction table with
  | nil => rfl
  | cons e rest ih =>
    have he := h e (by simp)
    simp only [respLoop, he, Bool.false_and, Bool.false_eq_true, if_false]
    exact ih (fun p hp => h p (by simp [hp]))

/-- C8 counterexample: the claim maps every name starting with "Validate"
to remainder ++ "ValidationResponse"; at the name "Validate" itself the
claimed result would be "ValidationResponse", but the code skips a table
entry whose remainder is empty and falls through to the default, returning
"ValidateResponse". -/
theorem claim_C8_counterexample :
    inferResponseTypeFromMethodName "Validate".data =
      "ValidateResponse".data ∧
    "ValidateResponse".data ≠ ("ValidationResponse".data : Str) := by
  constructor
  · decide
  · decide

/-- Stepping lemma: a table entry whose prefix matches with nonempty
remainder determines the respLoop result. -/
theorem respLoop_hit (p b a : Str) (tbl : List (Str × Str × Str)) (m : Str)
    (h1 : strStarts p m = true) (h2 : (dropStart p m).isEmpty = false) :
    respLoop ((p, b, a) :: tbl) m = some (b ++ dropStart p m ++ a) := by
  simp [respLoop, h1, h2]

/-- Stepping lemma: a table entry whose prefix does not match is skipped. -/
theorem respLoop_miss (p b a : Str) (tbl : List (Str × Str × Str)) (m : Str)
    (h : strStarts p m = false) :
    respLoop ((p, b, a) :: tbl) m = respLoop tbl m := by
  simp [respLoop, h]

/-- C8 amended: the prefix-to-format table behaves as claimed whenever the
remainder after the matched prefix is nonempty — Get maps to
remainder ++ "Response", List to remainder ++ "ListResponse", Search to
"Search" ++ remainder ++ "Response", Validate to
remainder ++ "ValidationResponse", Check to remainder ++ "CheckResponse" —
and a name matching no table prefix maps to name ++ "Response"; a name
exactly equal to a table prefix instead falls through to the default. -/
theorem claim_C8_theorem (name rest : Str) :
    (name = "Get".data ++ rest → rest ≠ [] →
      inferResponseTypeFromMethodName name = rest ++ "Response".data) ∧
    (name = "List".data ++ rest → rest ≠ [] →
      inferResponseTypeFromMethodName name = rest ++ "ListResponse".data) ∧
    (name = "Search".data ++ rest → rest ≠ [] →
      inferResponseTypeFromMethodName name =
        "Search".data ++ rest ++ "Response".data) ∧
    (name = "Validate".data ++ rest → rest ≠ [] →
      inferResponseTypeFromMethodName name =
        rest ++ "ValidationResponse".data) ∧
    (name = "Check".data ++ rest → rest ≠ [] →
      inferResponseTypeFromMethodName name = rest ++ "CheckResponse".data) ∧
    ((∀ p ∈ respTable, strStarts p.1 name = false) →
      inferResponseTypeFromMethodName name = name ++ "Response".data) := by
  refine ⟨?_, ?_, ?_, ?_, ?_, ?_⟩
  · intro hn hr
    subst hn
    have hre : (dropStart "Get".data ("Get".data ++ rest)).isEmpty
        = false := by
      rw [dropStart_append_self]
      cases rest with
      | nil => exact absurd rfl hr
      | cons c t => rfl
    unfold inferResponseTypeFromMethodName
    simp only [respTable]
    rw [respLoop_hit _ _ _ _ _ (strStarts_append_self _ _) hre,
      dropStart_append_self]
    simp
  · intro hn hr
    subst hn
    have e1 : strStarts "Get".data ("List".data ++ rest) = false :=
      strStarts_append_false _ _ _ (by decide)
    have e2 : strStarts "Fetch".data ("List".data ++ rest) = false :=
      strStarts_append_false _ _ _ (by decide)
    have hre : (dropStart "List".data ("List".data ++ rest)).isEmpty
        = false := by
      rw [dropStart_append_self]
      cases rest with
      | nil => exact absurd rfl hr
      | cons c t => rfl
    unfold inferResponseTypeFromMethodName
    simp only [respTable]
    rw [respLoop_miss _ _ _ _ _ e1, respLoop_miss _ _ _ _ _ e2,
      respLoop_hit _ _ _ _ _ (strStarts_append_self _ _) hre,
      dropStart_append_self]
    simp
  · intro hn hr
    subst hn
    have e1 : strStarts "Get".data ("Search".data ++ rest) = false :=
      strStarts_append_false _ _ _ (by decide)
    have e2 : strStarts "Fetch".data ("Search".data ++ rest) = false :=
      strStarts_append_false _ _ _ (by decide)
    have e3 : strStarts "List".data ("Search".data ++ rest) = false :=
      strStarts_append_false _ _ _ (by decide)
    have hre : (dropStart "Search".data ("Search".data ++ rest)).isEmpty
        = false := by
      rw [dropStart_append_self]
      cases rest with
      | nil => exact absurd rfl hr
      | cons c t => rfl
    unfold inferResponseTypeFromMethodName
    simp only [respTable]
    rw [respLoop_miss _ _ _ _ _ e1, respLoop_miss _ _ _ _ _ e2, respLoop_miss _ _ _ _ _ e3,
      respLoop_hit _ _ _ _ _ (strStarts_append_self _ _) hre,
      dropStart_append_self]
    simp
  · intro hn hr
    subst hn
    have e1 : strStarts "Get".data ("Validate".data ++ rest) = false :=
      strStarts_append_false _ _ _ (by decide)
    have e2 : strStarts "Fetch".data ("Validate".data ++ rest) = false :=
      strStarts_append_false _ _ _ (by decide)
    have e3 : strStarts "List".data ("Validate".data ++ rest) = false :=
      strStarts_append_false _ _ _ (by decide)
    have e4 : strStarts "Search".data ("Validate".data ++ rest) = false :=
      strStarts_append_false _ _ _ (by decide)
    have e5 : strStarts "Find".data ("Validate".data ++ rest) = false :=
      strStarts_append_false _ _ _ (by decide)
    have e6 : strStarts "Create".data ("Validate".data ++ rest) = false :=
      strStarts_append_false _ _ _ (by decide)
    have e7 : strStarts "Update".data ("Validate".data ++ rest) = false :=
      strStarts_append_false _ _ _ (by decide)
    have e8 : strStarts "Delete".data ("Validate".data ++ rest) = false :=
      strStarts_append_false _ _ _ (by decide)
    have e9 : strStarts "Save".data ("Validate".data ++ rest) = false :=
      strStarts_append_false _ _ _ (by decide)
    have e10 : strStarts "Parse".data ("Validate".data ++ rest) = false :=
      strStarts_append_false _ _ _ (by decide)
    have e11 : strStarts "Process".data ("Validate".data ++ rest) = false :=
      strStarts_append_false _ _ _ (by decide)
    have e12 : strStarts "Generate".data ("Validate".data ++ rest) = false :=
      strStarts_append_false _ _ _ (by decide)
    have e13 : strStarts "Calculate".data ("Validate".data ++ rest) = false :=
      strStarts_append_false _ _ _ (by decide)
    have hre : (dropStart "Validate".data ("Validate".data ++ rest)).isEmpty
        = false := by
      rw [dropStart_append_self]
      cases rest with
      | nil => exact absurd rfl hr
      | cons c t => rfl
    unfold inferResponseTypeFromMethodName
    simp only [respTable]
    rw [respLoop_miss _ _ _ _ _ e1, respLoop_miss _ _ _ _ _ e2, respLoop_miss _ _ _ _ _ e3, respLoop_miss _ _ _ _ _ e4, respLoop_miss _ _ _ _ _ e5, respLoop_miss _ _ _ _ _ e6, respLoop_miss _ _ _ _ _ e7, respLoop_miss _ _ _ _ _ e8, respLoop_miss _ _ _ _ _ e9, respLoop_miss _ _ _ _ _ e10, respLoop_miss _ _ _ _ _ e11, respLoop_miss _ _ _ _ _ e12, respLoop_miss _ _ _ _ _ e13,
      respLoop_hit _ _ _ _ _ (strStarts_append_self _ _) hre,
      dropStart_append_self]
    simp
  · intro hn hr
    subst hn
    have e1 : strStarts "Get".data ("Check".data ++ rest) = false :=
      strStarts_append_false _ _ _ (by decide)
    have e2 : strStarts "Fetch".data ("Check".data ++ rest) = false :=
      strStarts_append_false _ _ _ (by decide)
    have e3 : strStarts "List".data ("Check".data ++ rest) = false :=
      strStarts_append_false _ _ _ (by decide)
    have e4 : strStarts "Search".data ("Check".data ++ rest) = false :=
      strStarts_append_false _ _ _ (by decide)
    have e5 : strStarts "Find".data ("Check".data ++ rest) = false :=
      strStarts_append_false _ _ _ (by decide)
    have e6 : strStarts "Create".data ("Check".data ++ rest) = false :=
      strStarts_append_false _ _ _ (by decide)
    have e7 : strStarts "Update".data ("Check".data ++ rest) = false :=
      strStarts_append_false _ _ _ (by decide)
    have e8 : strStarts "Delete".data ("Check".data ++ rest) = false :=
      strStarts_append_false _ _ _ (by decide)
    have e9 : strStarts "Save".data ("Check".data ++ rest) = false :=
      strStarts_append_false _ _ _ (by decide)
    have e10 : strStarts "Parse".data ("Check".data ++ rest) = false :=
      strStarts_append_false _ _ _ (by decide)
    have e11 : strStarts "Process".data ("Check".data ++ rest) = false :=
      strStarts_append_false _ _ _ (by decide)
    have e12 : strStarts "Generate".data ("Check".data ++ rest) = false :=
      strStarts_append_false _ _ _ (by decide)
    have e13 : strStarts "Calculate".data ("Check".data ++ rest) = false :=
      strStarts_append_false _ _ _ (by decide)
    have e14 : strStarts "Validate".data ("Check".data ++ rest) = false :=
      strStarts_append_false _ _ _ (by decide)
    have hre : (dropStart "Check".data ("Check".data ++ rest)).isEmpty
        = false := by
      rw [dropStart_append_self]
      cases rest with
      | nil => exact absurd rfl hr
      | cons c t => rfl
    unfold inferResponseTypeFromMethodName
    simp only [respTable]
    rw [respLoop_miss _ _ _ _ _ e1, respLoop_miss _ _ _ _ _ e2, respLoop_miss _ _ _ _ _ e3, respLoop_miss _ _ _ _ _ e4, respLoop_miss _ _ _ _ _ e5, respLoop_miss _ _ _ _ _ e6, respLoop_miss _ _ _ _ _ e7, respLoop_miss _ _ _ _ _ e8, respLoop_miss _ _ _ _ _ e9, respLoop_miss _ _ _ _ _ e10, respLoop_miss _ _ _ _ _ e11, respLoop_miss _ _ _ _ _ e12, respLoop_miss _ _ _ _ _ e13, respLoop_miss _ _ _ _ _ e14,
      respLoop_hit _ _ _ _ _ (strStarts_append_self _ _) hre,
      dropStart_append_self]
    simp
  · intro h
    simp [inferResponseTypeFromMethodName, respLoop_none respTable name h]

/-- C8 witness: concrete instances of every conjunct of the amended
theorem. -/
theorem claim_C8_witness :
    inferResponseTypeFromMethodName "GetUser".data = "UserResponse".data ∧
    inferResponseTypeFromMethodName "ListUsers".data =
      "UsersListResponse".data ∧
    inferResponseTypeFromMethodName "SearchUsers".data =
      "SearchUsersResponse".data ∧
    inferResponseTypeFromMethodName "ValidateEmail".data =
      "EmailValidationResponse".data ∧
    inferResponseTypeFromMethodName "CheckHealth".data =
      "HealthCheckResponse".data ∧
    inferResponseTypeFromMethodName "Unknown".data = "UnknownResponse".data :=
  ⟨( claim_C8_theorem "GetUser".data "User".data).1 (by decide) (by decide),
   ( claim_C8_theorem "ListUsers".data "Users".data).2.1 (by decide)
     (by decide),
   ( claim_C8_theorem "SearchUsers".data "Users".data).2.2.1 (by decide)
     (by decide),
   ( claim_C8_theorem "ValidateEmail".data "Email".data).2.2.2.1 (by decide)
     (by decide),
   ( claim_C8_theorem "CheckHealth".data "Health".data).2.2.2.2.1 (by decide)
     (by decide),
   ( claim_C8_theorem "Unknown".data []).2.2.2.2.2 (by decide)⟩

/-! ## Claim C10: the two snake-case transforms -/

/-- The agreement condition: every uppercase character at a non-initial
position is immediately preceded by a lowercase letter or a digit. -/
def okPairs : Str → Bool
  | a :: b :: rest => (!(chIsUpper b) || chIsLowDig a) && okPairs (b :: rest)
  | _ => true

theorem upper_not_lowdig (c : Char) (h : chIsUpper c = true) :
    chIsLowDig c = false := by
  simp only [chIsUpper, Bool.and_eq_true, decide_eq_true_eq] at h
  simp only [chIsLowDig, chIsLower, chIsDigit, Bool.or_eq_false_iff,
    Bool.and_eq_false_iff, decide_eq_false_iff_not]
  constructor
  · omega
  · omega

theorem anaRest_eq_core :
    (l : Str) → (∀ c, l.head? = some c → chIsUpper c = false) →
      anaRest l = anaSnakeCore l
  | [], _ => rfl
  | c :: rest, h => by
    have hc : chIsUpper c = false := h c rfl
    simp [anaRest, anaSnakeCore, hc]

theorem snake_core_eq :
    (l : Str) → okPairs l = true →
      lowerStr (anaSnakeCore l) = lowerStr (regexSnake l)
  | [], _ => rfl
  | [c], _ => by simp [anaSnakeCore, anaRest, regexSnake]
  | a :: b :: rest, h => by
    simp only [okPairs, Bool.and_eq_true] at h
    obtain ⟨h1, h2⟩ := h
    by_cases hm : (chIsLowDig a && chIsUpper b) = true
    · have hla : chIsLowDig a = true := by
        have hm2 := hm
        simp only [Bool.and_eq_true] at hm2
        exact hm2.1
      have hub : chIsUpper b = true := by
        have hm2 := hm
        simp only [Bool.and_eq_true] at hm2
        exact hm2.2
      have hok_rest : okPairs rest = true := by
        cases rest with
        | nil => rfl
        | cons r0 rest2 =>
          simp only [okPairs, Bool.and_eq_true] at h2
          exact h2.2
      have hrest_eq : anaRest rest = anaSnakeCore rest := by
        cases rest with
        | nil => rfl
        | cons r0 rest2 =>
          simp only [okPairs, Bool.and_eq_true] at h2
          have hb := upper_not_lowdig b hub
          have h21 := h2.1
          simp only [Bool.or_eq_true] at h21
          have hr0 : chIsUpper r0 = false := by
            rcases h21 with hx | hx
            · simpa using hx
            · rw [hb] at hx; exact absurd hx (by simp)
          exact anaRest_eq_core _ (fun c hc => by
            simp only [List.head?_cons, Option.some.injEq] at hc
            exact hc ▸ hr0)
      have ih := snake_core_eq rest hok_rest
      simp only [regexSnake, hla, hub, Bool.and_self, if_true]
      simp only [anaSnakeCore, anaRest, hub, if_true]
      simp only [lowerStr, List.map_cons, List.cons_append,
        List.nil_append, List.map_append]
      rw [hrest_eq]
      simp only [lowerStr] at ih
      rw [ih]
    · have hub : chIsUpper b = false := by
        cases hbu : chIsUpper b with
        | false => rfl
        | true =>
          have hla : chIsLowDig a = true := by
            have h1b := h1
            simp only [Bool.or_eq_true] at h1b
            rcases h1b with hx | hx
            · rw [hbu] at hx; exact absurd hx (by simp)
            · exact hx
          exact absurd (by rw [hla, hbu]; rfl) hm
      have hmf : (chIsLowDig a && chIsUpper b) = false :=
        Bool.eq_false_iff.mpr hm
      have heq : anaRest (b :: rest) = anaSnakeCore (b :: rest) :=
        anaRest_eq_core _ (fun c hc => by
          simp only [List.head?_cons, Option.some.injEq] at hc
          exact hc ▸ hub)
      have ih := snake_core_eq (b :: rest) h2
      simp only [regexSnake, hmf, Bool.false_eq_true, if_false]
      simp only [anaSnakeCore]
      rw [heq]
      simp only [lowerStr, List.map_cons]
      simp only [lowerStr] at ih
      rw [ih]

/-- C10 counterexample: the two snake-case transforms disagree on "ID" —
the analyzer's transform yields "i_d" while the generator's regular
expression yields "id" — so they are not extensionally equal. -/
theorem claim_C10_counterexample :
    toSnakeCaseAna "ID".data = "i_d".data ∧
    toSnakeCaseGen "ID".data = "id".data ∧
    toSnakeCaseAna "ID".data ≠ toSnakeCaseGen "ID".data := by
  refine ⟨by decide, by decide, by decide⟩

/-- C10 amended: the analyzer's and the generator's snake-case transforms
agree on every string in which each uppercase character at a non-initial
position is immediately preceded by a lowercase letter or digit (okPairs);
on other strings — consecutive uppercase letters, or an uppercase letter
after an underscore — they can differ. -/
theorem claim_C10_theorem (s : Str) (h : okPairs s = true) :
    toSnakeCaseAna s = toSnakeCaseGen s := by
  unfold toSnakeCaseAna toSnakeCaseGen
  by_cases hc : (strHas ['_'] s && (lowerStr s == s)) = true
  · simp [hc]
  · simp only [hc, Bool.false_eq_true, if_false]
    exact snake_core_eq s h

/-- C10 witness: the amended theorem applied to a concrete camel-case
name. -/
theorem claim_C10_witness :
    okPairs "UserName".data = true ∧
    toSnakeCaseAna "UserName".data = toSnakeCaseGen "UserName".data :=
  ⟨by decide, claim_C10_theorem "UserName".data (by decide)⟩

/-! ## Claim C5: model-table registration order -/

theorem processSDKDecls_no_hit (pk : Str) (ds : List GoTypeDecl)
    (init : List (Str × Model)) (k : Str)
    (h : ∀ d ∈ ds, cleanTypeName d.name ≠ k) :
    lookupA (processSDKDecls pk ds init) k = lookupA init k := by
  induction ds generalizing init with
  | nil => rfl
  | cons d rest ih =>
    have hd : cleanTypeName d.name ≠ k := h d (by simp)
    have hrest : ∀ d2 ∈ rest, cleanTypeName d2.name ≠ k :=
      fun d2 h2 => h d2 (by simp [h2])
    show lookupA (processSDKDecls pk rest (sdkRegister pk init d)) k = _
    rw [ih (sdkRegister pk init d) hrest]
    simp only [sdkRegister, parseStruct]
    rw [lookupA_insertA]
    simp [beq_iff_eq, hd]

/-- C5 counterexample: two top-level struct declarations named User — the
first with one field, the second with none — leave the table holding the
Model of the second (last-registered) declaration, not the first: the
stored model has zero fields while the first declaration's model has one. -/
theorem claim_C5_counterexample :
    (lookupA (processSDKDecls "sdk".data
        [ { name := "User".data
            st := { fields := [ { names := ["Name".data]
                                  type := GoExpr.ident "string".data
                                  tag := none, doc := none } ] }
            doc := none }
        , { name := "User".data, st := { fields := [] }, doc := none } ]
        []) "User".data).map (fun m => m.fields.length) = some 0 ∧
    (parseStruct "sdk".data "User".data
      { fields := [ { names := ["Name".data]
                      type := GoExpr.ident "string".data
                      tag := none, doc := none } ] } none).fields.length
      = 1 := by
  refine ⟨by decide, by decide⟩

/-- C5 amended: the model-table insertion of parseSDKFile is
last-writer-wins, not first-writer-wins: after extraction the table holds
the Model built from the last declaration with a given (cleaned) name,
provided no later declaration reuses that name; earlier declarations are
overwritten.  (First-writer-wins applies only to the separate merge of
anonymous route models, not to these declarations.) -/
theorem claim_C5_theorem (pk : Str) (ds1 : List GoTypeDecl) (d : GoTypeDecl)
    (ds2 : List GoTypeDecl) (init : List (Str × Model))
    (h : ∀ d2 ∈ ds2, cleanTypeName d2.name ≠ cleanTypeName d.name) :
    lookupA (processSDKDecls pk (ds1 ++ d :: ds2) init)
        (cleanTypeName d.name) =
      some { parseStruct pk d.name d.st d.doc with
             name := cleanTypeName d.name } := by
  unfold processSDKDecls
  rw [List.foldl_append]
  show lookupA (processSDKDecls pk (d :: ds2) _) _ = _
  have step : processSDKDecls pk (d :: ds2)
      (List.foldl (sdkRegister pk) init ds1) =
      processSDKDecls pk ds2
        (sdkRegister pk (List.foldl (sdkRegister pk) init ds1) d) := rfl
  rw [step, processSDKDecls_no_hit pk ds2 _ _ h]
  simp only [sdkRegister, parseStruct]
  rw [lookupA_insertA]
  simp

/-- C5 witness: the amended theorem applied to two concrete declarations
with distinct names. -/
theorem claim_C5_witness :
    lookupA (processSDKDecls "sdk".data
        [ { name := "User".data, st := { fields := [] }, doc := none }
        , { name := "Account".data, st := { fields := [] }, doc := none } ]
        []) "User".data =
      some { parseStruct "sdk".data "User".data { fields := [] } none with
             name := cleanTypeName "User".data } :=
  claim_C5_theorem "sdk".data []
    { name := "User".data, st := { fields := [] }, doc := none }
    [ { name := "Account".data, st := { fields := [] }, doc := none } ] []
    (by decide)

/-! ## Claim C6: missing sdk directory is fatal, not advisory -/

/-- C6: main prints only an advisory WARNING when the sdk directory is
missing, but Analyze then fails anyway — filepath.Walk reports the lstat
error for the nonexistent root, parseSDKModels propagates it, and Analyze
returns the wrapped error (after which main aborts via log.Fatalf), so
extraction does not proceed to produce an Analysis value. -/
theorem claim_C6_theorem :
    analyzeModels "sdk".data none =
      Except.error
        "failed to parse SDK models: lstat sdk: no such file or directory".data
    := by
  rfl

/-! ## Claim C2: field requiredness in the synthesized schema -/

theorem foldl_genModelStep_snd (fs : List Field) (acc : SProps × List Str) :
    (fs.foldl genModelStep acc).2 =
      acc.2 ++ (fs.filter (fun f => fieldKept f && f.required)).map fieldKey := by
  induction fs generalizing acc with
  | nil => simp
  | cons f rest ih =>
    simp only [List.foldl_cons, List.filter_cons]
    by_cases hk : fieldKept f
    · by_cases hr : f.required
      · simp only [hk, hr, Bool.and_self, if_true, genModelStep]
        rw [ih]
        simp [hk, hr]
      · have hr2 : f.required = false := Bool.eq_false_iff.mpr hr
        simp only [genModelStep, hk, if_true, hr2, Bool.and_false,
          Bool.false_eq_true, if_false]
        rw [ih]
    · have hk2 : fieldKept f = false := Bool.eq_false_iff.mpr hk
      simp only [genModelStep, hk2, Bool.false_eq_true, if_false,
        Bool.false_and]
      rw [ih]

theorem genModel_required (m : Model) :
    (generateSchemaFromModel m).required =
      (m.fields.filter (fun f => fieldKept f && f.required)).map fieldKey := by
  unfold generateSchemaFromModel
  simp only [JSchema.required]
  rw [foldl_genModelStep_snd]
  simp

theorem parseStructField_omitempty (gf : GoField) (f : Field)
    (hf : f ∈ parseStructField gf)
    (h : strHas "omitempty".data f.jsonTag = true) : f.required = false := by
  unfold parseStructField at hf
  by_cases hn : gf.names.isEmpty
  · simp only [hn, if_true] at hf
    cases ht : gf.tag with
    | none =>
      rw [ht] at hf
      simp only [List.mem_singleton] at hf
      subst hf
      simp only [] at h
      exact absurd h (by decide)
    | some tv =>
      rw [ht] at hf
      by_cases hj : (extractJSONTag tv).isEmpty
      · simp only [hj, if_true, List.mem_singleton] at hf
        subst hf
        simp only [] at h
        exact absurd h (by decide)
      · have hj2 : (extractJSONTag tv).isEmpty = false := Bool.eq_false_iff.mpr hj
        simp only [hj2, Bool.false_eq_true, if_false,
          List.mem_singleton] at hf
        subst hf
        simp only [] at h
        simp only []
        rw [h]
        rfl
  · have hn2 : gf.names.isEmpty = false := Bool.eq_false_iff.mpr hn
    simp only [hn2, Bool.false_eq_true, if_false, List.mem_filterMap] at hf
    obtain ⟨nm, hnm, hsome⟩ := hf
    by_cases he : exported nm
    · simp only [he, Bool.not_true, Bool.false_eq_true, if_false] at hsome
      cases ht : gf.tag with
      | none =>
        rw [ht] at hsome
        simp only [Option.some.injEq] at hsome
        subst hsome
        simp only [] at h
        exact absurd h (by decide)
      | some tv =>
        rw [ht] at hsome
        by_cases hj : (extractJSONTag tv).isEmpty
        · simp only [hj, if_true, Option.some.injEq] at hsome
          subst hsome
          simp only [] at h
          exact absurd h (by decide)
        · have hj2 : (extractJSONTag tv).isEmpty = false :=
            Bool.eq_false_iff.mpr hj
          simp only [hj2, Bool.false_eq_true, if_false,
            Option.some.injEq] at hsome
          subst hsome
          simp only [] at h
          simp only []
          rw [h]
          rfl
    · have he2 : exported nm = false := Bool.eq_false_iff.mpr he
      simp [he2] at hsome

theorem nodup_map_mem_inj {α β : Type} (k : α → β) (l : List α)
    (hnd : (l.map k).Nodup) (a b : α) (ha : a ∈ l) (hb : b ∈ l)
    (hk : k a = k b) : a = b := by
  induction l with
  | nil => simp at ha
  | cons x rest ih =>
    simp only [List.map_cons, List.nodup_cons] at hnd
    rcases List.mem_cons.mp ha with ha1 | ha1 <;>
      rcases List.mem_cons.mp hb with hb1 | hb1
    · rw [ha1, hb1]
    · exfalso
      apply hnd.1
      have hxb : k x = k b := by rw [← ha1]; exact hk
      rw [hxb]
      exact List.mem_map_of_mem k hb1
    · exfalso
      apply hnd.1
      have hxa : k x = k a := by rw [← hb1]; exact hk.symm
      rw [hxa]
      exact List.mem_map_of_mem k ha1
    · exact ih hnd.2 ha1 hb1

theorem omitempty_ne_dash (jt : Str) (h : strHas "omitempty".data jt = true) :
    (jt == "-".data) = false := by
  cases hj : jt == "-".data with
  | false => rfl
  | true =>
    have hj2 : jt = "-".data := by simpa [beq_iff_eq] using hj
    subst hj2
    exact absurd h (by decide)

/-- C2 counterexample, two parts.  First, two fields whose json names
collide — A with json tag x,omitempty and B with json tag x — yield a
schema whose required list contains the key x of the omit-if-empty field A,
so that key is not absent as claimed.  Second, an embedded field with no
tag at all is extracted with required = false, so its property key is
absent from the required list although the claim says an untagged field is
always required. -/
theorem claim_C2_counterexample :
    (let m1 := parseStruct "sdk".data "M1".data
        { fields :=
          [ { names := ["A".data], type := GoExpr.ident "string".data
              tag := some "json:\"x,omitempty\"".data, doc := none }
          , { names := ["B".data], type := GoExpr.ident "string".data
              tag := some "json:\"x\"".data, doc := none } ] } none
     (generateSchemaFromModel m1).required = ["x".data] ∧
       m1.fields.map (fun f => (fieldKey f, strHas "omitempty".data f.jsonTag))
         = [("x".data, true), ("x".data, false)]) ∧
    (let m2 := parseStruct "sdk".data "M2".data
        { fields := [ { names := [], type := GoExpr.ident "Base".data
                        tag := none, doc := none } ] } none
     (generateSchemaFromModel m2).required = [] ∧
       m2.fields.map (fun f => (f.jsonTag, f.required)) = [([], false)]) := by
  refine ⟨⟨by decide, by decide⟩, ⟨by decide, by decide⟩⟩

/-- C2 amended: for every extracted model, (a) provided the property keys
of the model's kept fields are pairwise distinct, a field whose json tag
contains the omit-if-empty marker has its key absent from the schema's
required list, and (b) a named exported field carrying no struct tag at all
is required: its snake-cased name is present in the required list.
(Embedded fields without a json tag, and colliding property keys, are the
exceptions the counterexample exhibits.) -/
theorem claim_C2_theorem (pk nm0 : Str) (st : GoStructType)
    (doc : Option Str) :
    (((((parseStruct pk nm0 st doc).fields.filter fieldKept).map
        fieldKey).Nodup) →
      ∀ f ∈ (parseStruct pk nm0 st doc).fields,
        strHas "omitempty".data f.jsonTag = true →
        fieldKey f ∉
          (generateSchemaFromModel (parseStruct pk nm0 st doc)).required) ∧
    (∀ gf ∈ st.fields, gf.tag = none → ∀ nm ∈ gf.names, exported nm = true →
      toSnakeCaseGen nm ∈
        (generateSchemaFromModel (parseStruct pk nm0 st doc)).required) := by
  constructor
  · intro hnd f hf homit hmem
    rw [genModel_required] at hmem
    simp only [List.mem_map] at hmem
    obtain ⟨g, hg, hkey⟩ := hmem
    have hgfilter := List.mem_filter.mp hg
    have hgf : g ∈ (parseStruct pk nm0 st doc).fields := hgfilter.1
    have hgreq : (fieldKept g && g.required) = true := hgfilter.2
    have hfreq : f.required = false := by
      simp only [parseStruct, List.mem_flatMap] at hf
      obtain ⟨gf, hgf2, hmem2⟩ := hf
      exact parseStructField_omitempty gf f hmem2 homit
    have hfkept : fieldKept f = true := by
      unfold fieldKept
      rw [omitempty_ne_dash f.jsonTag homit]
      rfl
    have hfin : f ∈ (parseStruct pk nm0 st doc).fields.filter fieldKept :=
      List.mem_filter.mpr ⟨hf, hfkept⟩
    have hgin : g ∈ (parseStruct pk nm0 st doc).fields.filter fieldKept := by
      have hgk : fieldKept g = true := by
        simp only [Bool.and_eq_true] at hgreq
        exact hgreq.1
      exact List.mem_filter.mpr ⟨hgf, hgk⟩
    have heqgf : g = f := nodup_map_mem_inj fieldKey _ hnd g f hgin hfin hkey
    subst heqgf
    simp only [Bool.and_eq_true] at hgreq
    rw [hfreq] at hgreq
    exact absurd hgreq.2 (by simp)
  · intro gf hgf htag nm hnm hexp
    rw [genModel_required]
    have hfield : ({ name := nm
                     type := getTypeStringWithArrays gf.type
                     jsonTag := []
                     originalType := getTypeStringWithArrays gf.type
                     required := true
                     description := (gf.doc.map trimSpace).getD []
                     exampleV := none } : Field)
        ∈ (parseStruct pk nm0 st doc).fields := by
      simp only [parseStruct, List.mem_flatMap]
      refine ⟨gf, hgf, ?_⟩
      unfold parseStructField
      have hne : gf.names.isEmpty = false := by
        cases hns : gf.names with
        | nil => rw [hns] at hnm; simp at hnm
        | cons a b => rfl
      simp only [hne, Bool.false_eq_true, if_false, List.mem_filterMap]
      refine ⟨nm, hnm, ?_⟩
      simp only [hexp, Bool.not_true, Bool.false_eq_true, if_false, htag]
    refine List.mem_map.mpr ⟨_, List.mem_filter.mpr ⟨hfield, rfl⟩, ?_⟩
    simp [fieldKey]

/-- The concrete struct used by the C2 witness: a json-tagged field, an
untagged field, and an omit-if-empty field. -/
def c2WitnessStruct : GoStructType :=
  { fields :=
    [ { names := ["ID".data], type := GoExpr.ident "int".data
        tag := some "json:\"id\"".data, doc := none }
    , { names := ["Name".data], type := GoExpr.ident "string".data
        tag := none, doc := none }
    , { names := ["Extra".data], type := GoExpr.ident "string".data
        tag := some "json:\"extra,omitempty\"".data, doc := none } ] }

/-- C2 witness: concrete instances of both conjuncts of the amended
theorem. -/
theorem claim_C2_witness :
    (fieldKey { name := "Extra".data, type := "string".data
                jsonTag := "extra,omitempty".data
                originalType := "string".data, required := false
                description := [], exampleV := none } ∉
      (generateSchemaFromModel (parseStruct "sdk".data "W".data
        c2WitnessStruct none)).required) ∧
    toSnakeCaseGen "Name".data ∈
      (generateSchemaFromModel (parseStruct "sdk".data "W".data
        c2WitnessStruct none)).required :=
  ⟨( claim_C2_theorem "sdk".data "W".data c2WitnessStruct none).1 (by decide)
      { name := "Extra".data, type := "string".data
        jsonTag := "extra,omitempty".data
        originalType := "string".data, required := false
        description := [], exampleV := none } (by decide) (by decide),
   ( claim_C2_theorem "sdk".data "W".data c2WitnessStruct none).2
      { names := ["Name".data], type := GoExpr.ident "string".data
        tag := none, doc := none } (by decide) rfl
      "Name".data (by decide) (by decide)⟩

/-! ## Claim C4: path-parameter reconciliation -/

theorem memS_iff (l : List Str) (s : Str) : memS l s = true ↔ s ∈ l := by
  simp [memS, List.any_eq_true, beq_iff_eq]

theorem dedup_fold_mem (l : List Str) (acc : List Str) (x : Str) :
    (x ∈ l.foldl (fun acc t => if memS acc t then acc else acc ++ [t]) acc)
      ↔ x ∈ acc ∨ x ∈ l := by
  induction l generalizing acc with
  | nil => simp
  | cons t rest ih =>
    simp only [List.foldl_cons]
    by_cases hm : memS acc t = true
    · rw [show (if memS acc t then acc else acc ++ [t]) = acc by simp [hm]]
      rw [ih]
      constructor
      · rintro (h | h)
        · exact Or.inl h
        · exact Or.inr (List.mem_cons_of_mem t h)
      · rintro (h | h)
        · exact Or.inl h
        · rcases List.mem_cons.mp h with h | h
          · exact Or.inl (h ▸ (memS_iff acc t).mp hm)
          · exact Or.inr h
    · have hm2 : memS acc t = false := Bool.eq_false_iff.mpr hm
      rw [show (if memS acc t then acc else acc ++ [t]) = acc ++ [t]
        by simp [hm2]]
      rw [ih]
      simp only [List.mem_append, List.mem_singleton, List.mem_cons]
      tauto

theorem dedupKeep_mem (l : List Str) (x : Str) :
    x ∈ dedupKeep l ↔ x ∈ l := by
  unfold dedupKeep
  rw [dedup_fold_mem]
  simp

theorem vopInject_mono (l : List Str) (acc : List SpecParam) (p : SpecParam)
    (h : p ∈ acc) : p ∈ l.foldl vopInject acc := by
  induction l generalizing acc with
  | nil => exact h
  | cons nm rest ih =>
    simp only [List.foldl_cons]
    apply ih
    unfold vopInject
    by_cases hc : (acc.any fun q =>
        q.inLoc == "path".data && q.name == nm) = true
    · simp [hc, h]
    · have hc2 := Bool.eq_false_iff.mpr hc
      simp [hc2, h]

theorem vopInject_src (l : List Str) (acc : List SpecParam) (p : SpecParam)
    (h : p ∈ l.foldl vopInject acc) :
    p ∈ acc ∨ ∃ nm ∈ l, p = mkPathParam nm := by
  induction l generalizing acc with
  | nil => exact Or.inl h
  | cons nm rest ih =>
    simp only [List.foldl_cons] at h
    rcases ih (vopInject acc nm) h with h2 | h2
    · unfold vopInject at h2
      by_cases hc : (acc.any fun q =>
          q.inLoc == "path".data && q.name == nm) = true
      · rw [if_pos hc] at h2
        exact Or.inl h2
      · rw [if_neg hc] at h2
        rcases List.mem_append.mp h2 with h3 | h3
        · exact Or.inl h3
        · exact Or.inr ⟨nm, by simp, List.mem_singleton.mp h3⟩
    · obtain ⟨nm2, hnm2, hp⟩ := h2
      exact Or.inr ⟨nm2, by simp [hnm2], hp⟩

theorem vopInject_covers (l : List Str) (acc : List SpecParam) (nm : Str)
    (h : nm ∈ l) :
    ∃ p ∈ l.foldl vopInject acc,
      p.inLoc = "path".data ∧ p.name = nm := by
  induction l generalizing acc with
  | nil => simp at h
  | cons a rest ih =>
    simp only [List.foldl_cons]
    rcases List.mem_cons.mp h with h1 | h1
    · subst h1
      unfold vopInject
      by_cases hc : (acc.any fun q =>
          q.inLoc == "path".data && q.name == nm) = true
      · simp only [List.any_eq_true, Bool.and_eq_true, beq_iff_eq] at hc
        obtain ⟨q, hq, hq1, hq2⟩ := hc
        rw [if_pos]
        · exact ⟨q, vopInject_mono rest acc q hq, hq1, hq2⟩
        · simp only [List.any_eq_true, Bool.and_eq_true, beq_iff_eq]
          exact ⟨q, hq, hq1, hq2⟩
      · rw [if_neg hc]
        refine ⟨mkPathParam nm, vopInject_mono rest _ _ (by simp), ?_, ?_⟩
        · rfl
        · rfl
    · exact ih (vopInject acc a) h1

theorem vopInject_filter_nonpath (l : List Str) (acc : List SpecParam) :
    (l.foldl vopInject acc).filter (fun p => !(p.inLoc == "path".data)) =
      acc.filter (fun p => !(p.inLoc == "path".data)) := by
  induction l generalizing acc with
  | nil => rfl
  | cons nm rest ih =>
    simp only [List.foldl_cons]
    rw [ih]
    unfold vopInject
    by_cases hc : (acc.any fun q =>
        q.inLoc == "path".data && q.name == nm) = true
    · rw [if_pos hc]
    · rw [if_neg hc, List.filter_append]
      simp [mkPathParam]

/-- C4: after path-parameter reconciliation, (a) every path-located
parameter of the operation is named by a brace token of the path, (b)
every brace token has a path-located parameter, (c) non-path parameters
are exactly those of the original operation, untouched and in order, and
(d) in particular an operation generated for the route path
/users/:id/posts/:postId — whatever query parameters the handler declared
upstream — ends up with exactly two path-located parameters, named id and
postId. -/
theorem claim_C4_theorem :
    (∀ (toks : List Str) (op : Operation),
      (∀ p ∈ (validateOperationParameters toks op).parameters,
        p.inLoc = "path".data → p.name ∈ toks) ∧
      (∀ t ∈ toks, ∃ p ∈ (validateOperationParameters toks op).parameters,
        p.inLoc = "path".data ∧ p.name = t) ∧
      ((validateOperationParameters toks op).parameters.filter
          (fun p => !(p.inLoc == "path".data)) =
        op.parameters.filter (fun p => !(p.inLoc == "path".data)))) ∧
    (∀ (qps : List AParam), (∀ q ∈ qps, q.inLoc ≠ "path".data) →
      (((validateOperationParameters
          (braceTokens (convertPathFormat "/users/:id/posts/:postId".data))
          (generateOperation
            { path := "/users/:id/posts/:postId".data
              method := "GET".data, handler := "H".data, middleware := []
              requestBody := none, response := none
              parameters :=
                extractPathParameters "/users/:id/posts/:postId".data ++ qps
              tags := [] })).parameters.filter
        (fun p => p.inLoc == "path".data)).map (fun p => p.name))
        = ["id".data, "postId".data]) := by
  constructor
  · intro toks op
    refine ⟨?_, ?_, ?_⟩
    · intro p hp hloc
      unfold validateOperationParameters at hp
      simp only at hp
      rcases vopInject_src _ _ _ hp with h | h
      · have hf := List.mem_filter.mp h
        have hk := hf.2
        unfold vopKeep at hk
        rw [if_pos (by simp [hloc])] at hk
        exact (dedupKeep_mem toks p.name).mp ((memS_iff _ _).mp hk)
      · obtain ⟨nm, hnm, hpnm⟩ := h
        subst hpnm
        exact (dedupKeep_mem toks nm).mp hnm
    · intro t ht
      unfold validateOperationParameters
      simp only
      exact vopInject_covers _ _ t ((dedupKeep_mem toks t).mpr ht)
    · unfold validateOperationParameters
      simp only
      rw [vopInject_filter_nonpath]
      rw [List.filter_filter]
      apply List.filter_congr
      intro p hp
      cases hloc : (p.inLoc == "path".data) with
      | true => simp [vopKeep, hloc]
      | false => simp [vopKeep, hloc]
  · intro qps hq
    have hparams : (generateOperation
        { path := "/users/:id/posts/:postId".data
          method := "GET".data, handler := "H".data, middleware := []
          requestBody := none, response := none
          parameters :=
            extractPathParameters "/users/:id/posts/:postId".data ++ qps
          tags := [] }).parameters =
        (extractPathParameters "/users/:id/posts/:postId".data).map genOpParam
          ++ qps.map genOpParam := by
      rw [show (generateOperation
        { path := "/users/:id/posts/:postId".data
          method := "GET".data, handler := "H".data, middleware := []
          requestBody := none, response := none
          parameters :=
            extractPathParameters "/users/:id/posts/:postId".data ++ qps
          tags := [] }).parameters =
          (extractPathParameters "/users/:id/posts/:postId".data ++ qps).map
            genOpParam from rfl]
      exact List.map_append genOpParam _ _
    have hb : ∀ p ∈ qps.map genOpParam, (p.inLoc == "path".data) = false := by
      intro p hp
      rcases List.mem_map.mp hp with ⟨q, hq2, rfl⟩
      have : (genOpParam q).inLoc = q.inLoc := rfl
      rw [this]
      exact beq_eq_false_iff_ne.mpr (hq q hq2)
    unfold validateOperationParameters
    simp only [hparams]
    have hkeep : ((extractPathParameters
          "/users/:id/posts/:postId".data).map genOpParam
        ++ qps.map genOpParam).filter
          (vopKeep (dedupKeep (braceTokens (convertPathFormat
            "/users/:id/posts/:postId".data)))) =
        (extractPathParameters "/users/:id/posts/:postId".data).map genOpParam
          ++ qps.map genOpParam := by
      rw [List.filter_append]
      have h1 : ((extractPathParameters
          "/users/:id/posts/:postId".data).map genOpParam).filter
            (vopKeep (dedupKeep (braceTokens (convertPathFormat
              "/users/:id/posts/:postId".data)))) =
          (extractPathParameters "/users/:id/posts/:postId".data).map
            genOpParam := rfl
      have h2 : (qps.map genOpParam).filter
            (vopKeep (dedupKeep (braceTokens (convertPathFormat
              "/users/:id/posts/:postId".data)))) = qps.map genOpParam := by
        apply List.filter_eq_self.mpr
        intro p hp
        unfold vopKeep
        rw [if_neg]
        intro hc
        rw [hb p hp] at hc
        exact absurd hc (by simp)
      rw [h1, h2]
    rw [hkeep]
    have hfold : (dedupKeep (braceTokens (convertPathFormat
          "/users/:id/posts/:postId".data))).foldl vopInject
        ((extractPathParameters "/users/:id/posts/:postId".data).map
          genOpParam ++ qps.map genOpParam) =
        (extractPathParameters "/users/:id/posts/:postId".data).map
          genOpParam ++ qps.map genOpParam := by
      have hstep : ∀ nm ∈ dedupKeep (braceTokens (convertPathFormat
          "/users/:id/posts/:postId".data)),
          vopInject ((extractPathParameters
            "/users/:id/posts/:postId".data).map genOpParam
            ++ qps.map genOpParam) nm =
          (extractPathParameters "/users/:id/posts/:postId".data).map
            genOpParam ++ qps.map genOpParam := by
        intro nm hnm
        have hid : nm = "id".data ∨ nm = "postId".data := by
          have : nm ∈ (["id".data, "postId".data] : List Str) := by
            have he : dedupKeep (braceTokens (convertPathFormat
                "/users/:id/posts/:postId".data)) =
                ["id".data, "postId".data] := by decide
            rw [he] at hnm
            exact hnm
          simpa using this
        unfold vopInject
        rw [if_pos]
        rw [List.any_append]
        apply Bool.or_eq_true_iff.mpr
        left
        rcases hid with h | h <;> (subst h; decide)
      cases hd : dedupKeep (braceTokens (convertPathFormat
          "/users/:id/posts/:postId".data)) with
      | nil => rfl
      | cons a rest =>
        have ha := hstep a (by rw [hd]; simp)
        cases hr : rest with
        | nil =>
          simp only [List.foldl_cons, List.foldl_nil]
          exact ha
        | cons b rest2 =>
          have hb2 := hstep b (by rw [hd, hr]; simp)
          have hre : rest2 = [] := by
            have : dedupKeep (braceTokens (convertPathFormat
                "/users/:id/posts/:postId".data)) =
                ["id".data, "postId".data] := by decide
            rw [this] at hd
            injection hd with h1 h2
            rw [hr] at h2
            injection h2 with h3 h4
            exact h4.symm
          rw [hre]
          simp only [List.foldl_cons, List.foldl_nil]
          rw [ha, hb2]
    rw [hfold]
    rw [List.filter_append, List.map_append]
    have hA : (((extractPathParameters
        "/users/:id/posts/:postId".data).map genOpParam).filter
          (fun p => p.inLoc == "path".data)).map (fun p => p.name) =
        ["id".data, "postId".data] := by decide
    have hB : ((qps.map genOpParam).filter
          (fun p => p.inLoc == "path".data)) = [] := by
      apply List.filter_eq_nil_iff.mpr
      intro p hp
      rw [hb p hp]
      simp
    rw [hA, hB]
    rfl

/-- The empty operation used by the C4 witness. -/
def c4EmptyOp : Operation :=
  { tags := [], summary := [], description := [], operationId := []
    parameters := [], requestBody := none, responses := [], security := [] }

/-- C4 witness: the reconciliation theorem applied to the token list [id]
with no declared parameters, and the concrete two-token route with no
upstream query parameters. -/
theorem claim_C4_witness :
    ((mkPathParam "id".data).name ∈ (["id".data] : List Str)) ∧
    (∃ p ∈ (validateOperationParameters ["id".data] c4EmptyOp).parameters,
      p.inLoc = "path".data ∧ p.name = "id".data) ∧
    ((validateOperationParameters ["id".data] c4EmptyOp).parameters.filter
        (fun p => !(p.inLoc == "path".data)) =
      c4EmptyOp.parameters.filter (fun p => !(p.inLoc == "path".data))) ∧
    (((validateOperationParameters
        (braceTokens (convertPathFormat "/users/:id/posts/:postId".data))
        (generateOperation
          { path := "/users/:id/posts/:postId".data
            method := "GET".data, handler := "H".data, middleware := []
            requestBody := none, response := none
            parameters :=
              extractPathParameters "/users/:id/posts/:postId".data ++ []
            tags := [] })).parameters.filter
      (fun p => p.inLoc == "path".data)).map (fun p => p.name))
      = ["id".data, "postId".data] :=
  ⟨(claim_C4_theorem.1 ["id".data] c4EmptyOp).1 (mkPathParam "id".data)
      (List.Mem.head _) rfl,
   (claim_C4_theorem.1 ["id".data] c4EmptyOp).2.1 "id".data (by simp),
   (claim_C4_theorem.1 ["id".data] c4EmptyOp).2.2,
   claim_C4_theorem.2 [] (by simp)⟩

/-! ## Claim C9: unresolved-reference handling -/

theorem hasKeyA_of_mem {α : Type} (l : List (Str × α)) (p : Str × α)
    (h : p ∈ l) : hasKeyA l p.1 = true := by
  induction l with
  | nil => simp at h
  | cons q rest ih =>
    rcases List.mem_cons.mp h with h1 | h1
    · subst h1
      simp [hasKeyA, lookupA]
    · unfold hasKeyA lookupA
      by_cases hq : q.1 == p.1
      · obtain ⟨q1, q2⟩ := q
        simp only at hq
        simp [hq]
      · obtain ⟨q1, q2⟩ := q
        simp only at hq
        have hq2 := Bool.eq_false_iff.mpr hq
        simp only [hq2, Bool.false_eq_true, if_false]
        exact ih h1

theorem find?_pred {α : Type} (p : α → Bool) (l : List α) (a : α)
    (h : l.find? p = some a) : p a = true :=
  List.find?_some h

theorem findFold_key (all : List (Str × JSchema)) (cn k : Str)
    (h : findFold all cn = some k) :
    hasKeyA all k = true ∧ lowerEq k cn = true := by
  unfold findFold at h
  rcases Option.map_eq_some'.mp h with ⟨p, hfind, hk⟩
  subst hk
  have hp := find?_pred (fun q : Str × JSchema => lowerEq q.1 cn) all p hfind
  exact ⟨hasKeyA_of_mem all p (List.mem_of_find?_eq_some hfind),
    by simpa using hp⟩

/-- C9 counterexample: in a document whose only schema A has a property
holding the unresolvable reference Missing, the validation pass drops the
reference but leaves the holding schema with all its remaining (zero)
fields — an empty schema with no type — rather than replacing it by the
generic object schema with type object, as the claim states for every
occurrence. -/
theorem claim_C9_counterexample :
    ((lookupA (validateAndCleanSpec
        { openapi := []
          info := { title := [], description := [], version := [] }
          servers := []
          paths := []
          components :=
            { schemas := [("A".data,
                JSchema.mk "object".data [] [] []
                  (.cons "P".data (refSchema (refPre ++ "Missing".data)) .nil)
                  .noSchema [] .unset [] none none)]
              securitySchemes := [] }
          tags := [] }).components.schemas "A".data).map
      (fun s => (lookupP s.props "p".data).map
        (fun q => (q.type, q.ref)))) = some (some (([] : Str), ([] : Str)))
    ∧ ([] : Str) ≠ "object".data := by
  refine ⟨by decide, by decide⟩

/-- C9 amended, describing what each pass actually does.  (i) In the
schema-table cleaning pass, a reference whose cleaned target name is
absent from the table but matches an existing schema name
case-insensitively is rewritten to that name, which resolves.  (ii) When
no case-insensitive match exists either, cleanReference yields the empty
string and cleanSchema leaves the holding schema without a reference, its
other fields (in particular its type) intact — an empty schema when the
holder was a pure reference, not a generic object schema.  (iii) Only the
final remover pass substitutes the generic object schema, and it does so
for any schema whose reference target is not a valid name — in operations
this is the only treatment unresolved references receive; no
case-insensitive matching is attempted there. -/
theorem claim_C9_theorem :
    (∀ (ref : Str) (all : List (Str × JSchema)) (nm k : Str),
      ref ≠ [] →
      (splitCh '/' ref).getLast? = some nm →
      hasKeyA all (cleanSchemaName nm) = false →
      findFold all (cleanSchemaName nm) = some k →
      cleanReference ref all = refPre ++ k ∧ hasKeyA all k = true ∧
        lowerEq k (cleanSchemaName nm) = true) ∧
    (∀ (ref : Str) (all : List (Str × JSchema)) (nm : Str),
      ref ≠ [] →
      (splitCh '/' ref).getLast? = some nm →
      hasKeyA all (cleanSchemaName nm) = false →
      findFold all (cleanSchemaName nm) = none →
      cleanReference ref all = [] ∧
      ∀ s : JSchema, s.ref = ref →
        (cleanSchemaF all s).ref = [] ∧ (cleanSchemaF all s).type = s.type) ∧
    (∀ (valid : List Str) (s : JSchema),
      s.ref ≠ [] →
      memS valid (dropStart refPre s.ref) = false →
      remSchema valid s = objectSchema) := by
  refine ⟨?_, ?_, ?_⟩
  · intro ref all nm k href hlast hmiss hfold
    have hrefE : ref.isEmpty = false := by
      cases ref with
      | nil => exact absurd rfl href
      | cons c t => rfl
    have hkk := findFold_key all (cleanSchemaName nm) k hfold
    have hcr : cleanReference ref all = refPre ++ k := by
      unfold cleanReference
      rw [hrefE]
      simp only [Bool.false_eq_true, if_false, hlast]
      simp only [hmiss, Bool.false_eq_true, if_false, hfold]
      simp only [hkk.1, if_true]
    exact ⟨hcr, hkk.1, hkk.2⟩
  · intro ref all nm href hlast hmiss hfold
    have hrefE : ref.isEmpty = false := by
      cases ref with
      | nil => exact absurd rfl href
      | cons c t => rfl
    have hclean : cleanReference ref all = [] := by
      unfold cleanReference
      rw [hrefE]
      simp only [Bool.false_eq_true, if_false, hlast]
      simp only [hmiss, Bool.false_eq_true, if_false, hfold]
    refine ⟨hclean, ?_⟩
    intro s hs
    cases s with
    | mk t f r d props items rq addl e df ex =>
      simp only [JSchema.ref] at hs
      subst hs
      have hrne : r.isEmpty = false := by
        cases r with
        | nil => exact absurd rfl href
        | cons c t2 => rfl
      constructor
      · show (cleanSchemaF all (.mk t f r d props items rq addl e df ex)).ref
            = []
        unfold cleanSchemaF
        rw [hrne]
        simp only [Bool.not_false, if_true, hclean]
        rfl
      · show (cleanSchemaF all (.mk t f r d props items rq addl e df ex)).type
            = (JSchema.mk t f r d props items rq addl e df ex).type
        unfold cleanSchemaF
        rw [hrne]
        simp only [Bool.not_false, if_true, hclean]
        rfl
  · intro valid s href hmem
    cases s with
    | mk t f r d props items rq addl e df ex =>
      simp only [JSchema.ref] at href hmem
      have hrne : r.isEmpty = false := by
        cases r with
        | nil => exact absurd rfl href
        | cons c t2 => rfl
      unfold remSchema
      rw [hrne, hmem]
      rfl

/-- C9 witness: the three conjuncts of the amended theorem at concrete
inputs — a case-insensitive rewrite of USER to User, a dropped reference
to Missing, and the remover's object fallback. -/
theorem claim_C9_witness :
    (cleanReference (refPre ++ "USER".data)
        [("User".data, objectSchema)] = refPre ++ "User".data ∧
      hasKeyA [("User".data, objectSchema)] "User".data = true ∧
      lowerEq "User".data (cleanSchemaName "USER".data) = true) ∧
    (cleanReference (refPre ++ "Missing".data)
        [("User".data, objectSchema)] = [] ∧
      (cleanSchemaF [("User".data, objectSchema)]
        (refSchema (refPre ++ "Missing".data))).ref = [] ∧
      (cleanSchemaF [("User".data, objectSchema)]
        (refSchema (refPre ++ "Missing".data))).type = []) ∧
    remSchema ["User".data] (refSchema (refPre ++ "Missing".data)) =
      objectSchema := by
  have h1 := claim_C9_theorem.1 (refPre ++ "USER".data)
    [("User".data, objectSchema)] "USER".data "User".data (by decide)
    (by decide) (by decide) (by decide)
  have h2 := claim_C9_theorem.2.1 (refPre ++ "Missing".data)
    [("User".data, objectSchema)] "Missing".data (by decide) (by decide)
    (by decide) (by decide)
  have h3 := claim_C9_theorem.2.2 ["User".data]
    (refSchema (refPre ++ "Missing".data)) (by decide) (by decide)
  refine ⟨⟨h1.1, h1.2.1, h1.2.2⟩, ⟨h2.1, ?_, ?_⟩, h3⟩
  · exact (h2.2 (refSchema (refPre ++ "Missing".data)) rfl).1
  · have := (h2.2 (refSchema (refPre ++ "Missing".data)) rfl).2
    rw [this]
    rfl

/-! ## Claim C3: route identity and deduplication -/

/-- The methods the route-registration parser can put into a Route (after
strings.ToUpper and the isHTTPMethod check) that the Generate switch can
represent; HEAD and OPTIONS fall through the switch and yield no
operation. -/
def canonMethods : List Str :=
  ["GET".data, "POST".data, "PUT".data, "DELETE".data, "PATCH".data]

/-- The verb-slot read matching the setVerb switch. -/
def getVerb (lm : Str) (pi : PathItem) : Option Operation :=
  if lm == "get".data then pi.get
  else if lm == "post".data then pi.post
  else if lm == "put".data then pi.put
  else if lm == "delete".data then pi.delete
  else if lm == "patch".data then pi.patch
  else none

theorem memS_append_single (l : List Str) (x k : Str) :
    memS (l ++ [x]) k = (memS l k || (x == k)) := by
  simp [memS, List.any_append]

theorem routeStep_skip (st : GenState) (r : Route)
    (h : memS st.processed (routeKey r) = true) : routeStep st r = st := by
  unfold routeStep
  simp [h]

theorem routeStep_write (st : GenState) (r : Route)
    (h : memS st.processed (routeKey r) = false) :
    routeStep st r =
      { processed := st.processed ++ [routeKey r]
        paths := insertA st.paths (convertPathFormat r.path)
          (setVerb (lowerStr r.method) (generateOperation r)
            ((lookupA st.paths (convertPathFormat r.path)).getD
              emptyPathItem))
        tagSet := r.tags.foldl
          (fun acc t => if memS acc t then acc else acc ++ [t])
          st.tagSet } := by
  unfold routeStep
  simp [h]

theorem routeFold_processed_iff (l : List Route) (st : GenState) (k : Str) :
    memS (l.foldl routeStep st).processed k = true ↔
      (memS st.processed k = true ∨ ∃ r ∈ l, routeKey r = k) := by
  induction l generalizing st with
  | nil => simp
  | cons r rest ih =>
    simp only [List.foldl_cons]
    rw [ih]
    by_cases hs : memS st.processed (routeKey r) = true
    · rw [routeStep_skip st r hs]
      constructor
      · rintro (h | h)
        · exact Or.inl h
        · exact Or.inr ⟨h.choose, List.mem_cons_of_mem r h.choose_spec.1,
            h.choose_spec.2⟩
      · rintro (h | h)
        · exact Or.inl h
        · obtain ⟨r2, hr2, hk⟩ := h
          rcases List.mem_cons.mp hr2 with h3 | h3
          · subst h3
            exact Or.inl (hk ▸ hs)
          · exact Or.inr ⟨r2, h3, hk⟩
    · have hs2 : memS st.processed (routeKey r) = false :=
        Bool.eq_false_iff.mpr hs
      have hst : (routeStep st r).processed = st.processed ++ [routeKey r] := by
        unfold routeStep
        simp [hs2]
      rw [hst, memS_append_single]
      constructor
      · rintro (h | h)
        · rcases Bool.or_eq_true_iff.mp h with h2 | h2
          · exact Or.inl h2
          · exact Or.inr ⟨r, by simp, by simpa [beq_iff_eq] using h2⟩
        · exact Or.inr ⟨h.choose, List.mem_cons_of_mem r h.choose_spec.1,
            h.choose_spec.2⟩
      · rintro (h | h)
        · exact Or.inl (Bool.or_eq_true_iff.mpr (Or.inl h))
        · obtain ⟨r2, hr2, hk⟩ := h
          rcases List.mem_cons.mp hr2 with h3 | h3
          · subst h3
            exact Or.inl (Bool.or_eq_true_iff.mpr (Or.inr
              (by simp [beq_iff_eq, hk])))
          · exact Or.inr ⟨r2, h3, hk⟩

theorem routeFold_dup (l1 l2 : List Route) (r : Route)
    (h : ∃ r0 ∈ l1, routeKey r0 = routeKey r) :
    (l1 ++ r :: l2).foldl routeStep ⟨[], [], []⟩ =
      (l1 ++ l2).foldl routeStep ⟨[], [], []⟩ := by
  rw [List.foldl_append, List.foldl_append]
  simp only [List.foldl_cons]
  rw [routeStep_skip]
  exact (routeFold_processed_iff l1 _ _).mpr (Or.inr h)

theorem lows_of_canon (m : Str) (h : m ∈ canonMethods) :
    lowerStr m ∈ (["get".data, "post".data, "put".data, "delete".data,
      "patch".data] : List Str) := by
  simp only [canonMethods, List.mem_cons, List.not_mem_nil, or_false] at h
  rcases h with rfl | rfl | rfl | rfl | rfl <;> decide

theorem canon_lower_inj (m1 m2 : Str) (h1 : m1 ∈ canonMethods)
    (h2 : m2 ∈ canonMethods) (hne : m1 ≠ m2) : lowerStr m1 ≠ lowerStr m2 := by
  simp only [canonMethods, List.mem_cons, List.not_mem_nil, or_false]
    at h1 h2
  rcases h1 with rfl | rfl | rfl | rfl | rfl <;>
    rcases h2 with rfl | rfl | rfl | rfl | rfl <;>
    first
      | exact absurd rfl hne
      | decide

theorem getVerb_setVerb_same (lm : Str) (op : Operation) (pi : PathItem)
    (h : lm ∈ (["get".data, "post".data, "put".data, "delete".data,
      "patch".data] : List Str)) :
    getVerb lm (setVerb lm op pi) = some op := by
  simp only [List.mem_cons, List.not_mem_nil, or_false] at h
  rcases h with rfl | rfl | rfl | rfl | rfl <;> rfl

theorem getVerb_setVerb_ne (lm1 lm2 : Str) (op : Operation) (pi : PathItem)
    (h1 : lm1 ∈ (["get".data, "post".data, "put".data, "delete".data,
      "patch".data] : List Str))
    (h2 : lm2 ∈ (["get".data, "post".data, "put".data, "delete".data,
      "patch".data] : List Str))
    (hne : lm1 ≠ lm2) :
    getVerb lm1 (setVerb lm2 op pi) = getVerb lm1 pi := by
  simp only [List.mem_cons, List.not_mem_nil, or_false] at h1 h2
  rcases h1 with rfl | rfl | rfl | rfl | rfl <;>
    rcases h2 with rfl | rfl | rfl | rfl | rfl <;>
    first
      | exact absurd rfl hne
      | rfl

theorem routeFold_inv (l2 : List Route) (st : GenState) (mi oap : Str)
    (op : Operation)
    (hmi : mi ∈ canonMethods)
    (hcanon : ∀ r ∈ l2, r.method ∈ canonMethods)
    (hproc : memS st.processed (mi ++ (':' :: oap)) = true)
    (hslot : getVerb (lowerStr mi)
      ((lookupA st.paths oap).getD emptyPathItem) = some op) :
    getVerb (lowerStr mi)
      ((lookupA (l2.foldl routeStep st).paths oap).getD emptyPathItem) =
      some op := by
  induction l2 generalizing st with
  | nil => exact hslot
  | cons r2 rest ih =>
    simp only [List.foldl_cons]
    by_cases hs : memS st.processed (routeKey r2) = true
    · rw [routeStep_skip st r2 hs]
      exact ih st (fun r hr => hcanon r (List.mem_cons_of_mem r2 hr))
        hproc hslot
    · have hs2 : memS st.processed (routeKey r2) = false :=
        Bool.eq_false_iff.mpr hs
      have hr2c : r2.method ∈ canonMethods := hcanon r2 (by simp)
      rw [routeStep_write st r2 hs2]
      apply ih
      · exact fun r hr => hcanon r (List.mem_cons_of_mem r2 hr)
      · simp only [memS_append_single, hproc, Bool.true_or]
      · simp only
        by_cases hoap : convertPathFormat r2.path = oap
        · subst hoap
          rw [lookupA_insertA]
          simp only [beq_self_eq_true, if_true, Option.getD_some]
          have hmne : r2.method ≠ mi := by
            intro hme
            apply hs
            have hk : routeKey r2 =
                mi ++ (':' :: convertPathFormat r2.path) := by
              unfold routeKey
              rw [hme]
            rw [hk]
            exact hproc
          rw [getVerb_setVerb_ne (lowerStr mi) (lowerStr r2.method) _ _
            (lows_of_canon mi hmi) (lows_of_canon r2.method hr2c)
            (Ne.symm (canon_lower_inj r2.method mi hr2c hmi hmne))]
          exact hslot
        · rw [lookupA_insertA]
          rw [if_neg (by simpa [beq_iff_eq] using hoap)]
          exact hslot

/-- C3: operations are keyed by (raw method, normalized path).  First, for
every route list, when a later route duplicates the key of an earlier one,
Generate produces the same document as on the list with the duplicate
removed — duplicates are collapsed, first occurrence kept, for the whole
document (paths, operations, schemas and tags).  Second, for route lists
whose methods are the canonical representable verbs, the draft verb slot
for a route that is the first of its key holds exactly the operation
generated from that route (the validation passes then transform that
single operation in place). -/
theorem claim_C3_theorem :
    (∀ (cfg : GenConfig) (ms : List Model) (rs : List Route) (i j : Nat)
      (hij : i < j) (hj : j < rs.length),
      routeKey (rs.get ⟨i, Nat.lt_trans hij hj⟩) =
        routeKey (rs.get ⟨j, hj⟩) →
      Generate cfg ms rs = Generate cfg ms (rs.eraseIdx j)) ∧
    (∀ (rs : List Route) (i : Nat) (hi : i < rs.length),
      (∀ r ∈ rs, r.method ∈ canonMethods) →
      (∀ (j : Nat) (hj : j < i),
        routeKey (rs.get ⟨j, Nat.lt_trans hj hi⟩) ≠
          routeKey (rs.get ⟨i, hi⟩)) →
      getVerb (lowerStr (rs.get ⟨i, hi⟩).method)
        ((lookupA (routeFold rs).paths
          (convertPathFormat (rs.get ⟨i, hi⟩).path)).getD emptyPathItem) =
        some (generateOperation (rs.get ⟨i, hi⟩))) := by
  constructor
  · intro cfg ms rs i j hij hj hkey
    have hsplit : rs = rs.take j ++ rs.get ⟨j, hj⟩ :: rs.drop (j + 1) := by
      conv_lhs => rw [← List.take_append_drop j rs]
      rw [List.drop_eq_getElem_cons hj]
      rfl
    have herase : rs.eraseIdx j = rs.take j ++ rs.drop (j + 1) :=
      List.eraseIdx_eq_take_drop_succ rs j
    have hmem : rs.get ⟨i, Nat.lt_trans hij hj⟩ ∈ rs.take j := by
      have hlt : i < (rs.take j).length := by
        rw [List.length_take]
        exact lt_min hij (Nat.lt_trans hij hj)
      have hgt : (rs.take j).get ⟨i, hlt⟩ = rs.get ⟨i, Nat.lt_trans hij hj⟩ := by
        simp [List.getElem_take]
      rw [← hgt]
      exact List.get_mem _ _ _
    have hfold : routeFold rs = routeFold (rs.eraseIdx j) := by
      unfold routeFold
      rw [herase]
      conv_lhs => rw [hsplit]
      exact routeFold_dup (rs.take j) (rs.drop (j + 1)) (rs.get ⟨j, hj⟩)
        ⟨rs.get ⟨i, Nat.lt_trans hij hj⟩, hmem, hkey⟩
    unfold Generate
    congr 1
    unfold draftSpec
    rw [hfold]
  · intro rs i hi hcanon hfirst
    have hsplit : rs = rs.take i ++ rs.get ⟨i, hi⟩ :: rs.drop (i + 1) := by
      conv_lhs => rw [← List.take_append_drop i rs]
      rw [List.drop_eq_getElem_cons hi]
      rfl
    have hnotproc : memS ((rs.take i).foldl routeStep
        ⟨[], [], []⟩).processed (routeKey (rs.get ⟨i, hi⟩)) = false := by
      cases hmp : memS ((rs.take i).foldl routeStep ⟨[], [], []⟩).processed
          (routeKey (rs.get ⟨i, hi⟩)) with
      | false => rfl
      | true =>
        exfalso
        rcases (routeFold_processed_iff _ _ _).mp hmp with h | h
        · simp [memS] at h
        · obtain ⟨r0, hr0, hk0⟩ := h
          obtain ⟨j, hjr⟩ := List.mem_iff_get.mp hr0
          have hjlt2 : (j : Nat) < i :=
            lt_of_lt_of_le j.isLt
              (by rw [List.length_take]; exact min_le_left _ _)
          apply hfirst j.val hjlt2
          have hgt : (rs.take i).get j =
              rs.get ⟨j.val, Nat.lt_trans hjlt2 hi⟩ := by
            simp [List.getElem_take]
          rw [hgt] at hjr
          rw [hjr]
          exact hk0
    have hfold2 : routeFold rs =
        (rs.get ⟨i, hi⟩ :: rs.drop (i + 1)).foldl routeStep
          ((rs.take i).foldl routeStep ⟨[], [], []⟩) := by
      unfold routeFold
      conv_lhs => rw [hsplit]
      rw [List.foldl_append]
    rw [hfold2]
    simp only [List.foldl_cons]
    rw [routeStep_write _ _ hnotproc]
    have hic : (rs.get ⟨i, hi⟩).method ∈ canonMethods :=
      hcanon _ (List.get_mem rs i hi)
    apply routeFold_inv
    · exact hic
    · intro r hr
      apply hcanon
      exact List.mem_of_mem_drop hr
    · simp only [memS_append_single]
      have : routeKey (rs.get ⟨i, hi⟩) =
          (rs.get ⟨i, hi⟩).method ++
            (':' :: convertPathFormat (rs.get ⟨i, hi⟩).path) := rfl
      rw [← this]
      simp
    · simp only
      rw [lookupA_insertA]
      simp only [beq_self_eq_true, if_true, Option.getD_some]
      exact getVerb_setVerb_same _ _ _ (lows_of_canon _ hic)

/-- The duplicated route of the C3 witness scenario. -/
def c3Route : Route :=
  { path := "/v1/users".data
    method := "GET".data
    handler := "GetUsers".data
    middleware := []
    requestBody := none
    response := none
    parameters := []
    tags := ["users".data] }

/-- The generator config of the C3 witness scenario. -/
def c3Cfg : GenConfig :=
  { title := "T".data
    version := "1".data
    description := "D".data
    serverURL := "u".data }

/-- C3 witness: both conjuncts at a concrete duplicated GET route. -/
theorem claim_C3_witness :
    (Generate c3Cfg [] [c3Route, c3Route] =
      Generate c3Cfg [] ([c3Route, c3Route].eraseIdx 1)) ∧
    getVerb (lowerStr c3Route.method)
      ((lookupA (routeFold [c3Route]).paths
        (convertPathFormat c3Route.path)).getD emptyPathItem) =
      some (generateOperation c3Route) :=
  ⟨claim_C3_theorem.1 c3Cfg [] [c3Route, c3Route] 0 1 (by decide) (by decide)
     rfl,
   claim_C3_theorem.2 [c3Route] 0 (by decide)
     (by
       intro r hr
       simp only [List.mem_singleton] at hr
       subst hr
       decide)
     (fun j hj => absurd hj (Nat.not_lt_zero j))⟩

/-! ## Claim C7: model enumeration order and the shape of the output -/

/-- The number of entries of an embedded properties map. -/
def sPropsLen : SProps → Nat
  | .nil => 0
  | .cons _ _ rest => sPropsLen rest + 1

/-- A plain string field of the C7 scenario. -/
def c7Field : Field :=
  { name := "Name".data
    type := "string".data
    jsonTag := []
    originalType := "string".data
    required := true
    description := []
    exampleV := none }

/-- A model named User carrying one field. -/
def c7ModelA : Model :=
  { name := "User".data
    pkg := "sdk".data
    fields := [c7Field]
    description := [] }

/-- A model whose raw name sdk.User also cleans to User, with no fields. -/
def c7ModelB : Model :=
  { name := "sdk.User".data
    pkg := "sdk".data
    fields := []
    description := [] }

/-- The generator config of the C7 scenario. -/
def c7Cfg : GenConfig :=
  { title := "T".data
    version := "1".data
    description := "D".data
    serverURL := "u".data }

theorem lookupA_mem {α : Type} (l : List (Str × α)) (k : Str) (v : α)
    (h : lookupA l k = some v) : (k, v) ∈ l := by
  induction l with
  | nil => simp [lookupA] at h
  | cons p rest ih =>
    obtain ⟨a, w⟩ := p
    by_cases hk : (a == k) = true
    · simp only [lookupA, hk, if_true, Option.some.injEq] at h
      have ha : a = k := by simpa [beq_iff_eq] using hk
      subst ha
      subst h
      exact List.mem_cons_self _ _
    · have hk2 : (a == k) = false := Bool.eq_false_iff.mpr hk
      simp only [lookupA, hk2, Bool.false_eq_true, if_false] at h
      exact List.mem_cons_of_mem _ (ih h)

theorem hasKeyA_exists {α : Type} (l : List (Str × α)) (k : Str)
    (h : hasKeyA l k = true) : ∃ v, (k, v) ∈ l := by
  unfold hasKeyA at h
  cases hl : lookupA l k with
  | none => rw [hl] at h; simp at h
  | some v => exact ⟨v, lookupA_mem l k v hl⟩

theorem mem_insertA {α : Type} (l : List (Str × α)) (k : Str) (v : α)
    (q : Str × α) (h : q ∈ insertA l k v) : q ∈ l ∨ q = (k, v) := by
  induction l with
  | nil =>
    simp only [insertA, List.mem_singleton] at h
    exact Or.inr h
  | cons p rest ih =>
    obtain ⟨a, w⟩ := p
    by_cases hk : (a == k) = true
    · simp only [insertA, hk, if_true] at h
      rcases List.mem_cons.mp h with h1 | h1
      · have ha : a = k := by simpa [beq_iff_eq] using hk
        subst ha
        exact Or.inr h1
      · exact Or.inl (List.mem_cons_of_mem _ h1)
    · have hk2 : (a == k) = false := Bool.eq_false_iff.mpr hk
      simp only [insertA, hk2, Bool.false_eq_true, if_false] at h
      rcases List.mem_cons.mp h with h1 | h1
      · subst h1
        exact Or.inl (List.mem_cons_self _ _)
      · rcases ih h1 with h2 | h2
        · exact Or.inl (List.mem_cons_of_mem _ h2)
        · exact Or.inr h2

theorem any_ext_mem {α : Type} (l1 l2 : List α) (h : ∀ x, x ∈ l1 ↔ x ∈ l2)
    (p : α → Bool) : l1.any p = l2.any p := by
  cases h1 : l1.any p with
  | true =>
    obtain ⟨x, hx, hpx⟩ := List.any_eq_true.mp h1
    exact (List.any_eq_true.mpr ⟨x, (h x).mp hx, hpx⟩).symm
  | false =>
    cases h2 : l2.any p with
    | false => rfl
    | true =>
      obtain ⟨x, hx, hpx⟩ := List.any_eq_true.mp h2
      have h3 := List.any_eq_true.mpr ⟨x, (h x).mpr hx, hpx⟩
      rw [h1] at h3
      exact h3

/-- Lists with the same key membership have equal any over key-only
predicates. -/
theorem any_fst_ext {α : Type} (l1 l2 : List (Str × α))
    (h : ∀ n, hasKeyA l1 n = hasKeyA l2 n) (q : Str → Bool) :
    l1.any (fun p => q p.1) = l2.any (fun p => q p.1) := by
  cases h1 : l1.any (fun p => q p.1) with
  | true =>
    obtain ⟨p, hp, hq⟩ := List.any_eq_true.mp h1
    have hk1 := hasKeyA_of_mem l1 p hp
    rw [h p.1] at hk1
    obtain ⟨v, hv⟩ := hasKeyA_exists l2 p.1 hk1
    exact (List.any_eq_true.mpr ⟨(p.1, v), hv, hq⟩).symm
  | false =>
    cases h2 : l2.any (fun p => q p.1) with
    | false => rfl
    | true =>
      obtain ⟨p, hp, hq⟩ := List.any_eq_true.mp h2
      have hk2 := hasKeyA_of_mem l2 p hp
      rw [← h p.1] at hk2
      obtain ⟨v, hv⟩ := hasKeyA_exists l1 p.1 hk2
      have h3 : l1.any (fun p => q p.1) = true :=
        List.any_eq_true.mpr ⟨(p.1, v), hv, hq⟩
      rw [h1] at h3
      exact h3

theorem memS_map_fst {α : Type} (l : List (Str × α)) (x : Str) :
    memS (l.map (fun p => p.1)) x = hasKeyA l x := by
  induction l with
  | nil => rfl
  | cons p rest ih =>
    obtain ⟨a, v⟩ := p
    by_cases hk : (a == x) = true
    · simp [memS, hasKeyA, lookupA, hk]
    · have hk2 : (a == x) = false := Bool.eq_false_iff.mpr hk
      simp only [List.map_cons, memS, List.any_cons, hk2, Bool.false_or,
        hasKeyA, lookupA, Bool.false_eq_true, if_false]
      simpa [memS, hasKeyA] using ih

theorem hasKeyA_map_val {α β : Type} (l : List (Str × α)) (f : α → β)
    (k : Str) :
    hasKeyA (l.map (fun p => (p.1, f p.2))) k = hasKeyA l k := by
  induction l with
  | nil => rfl
  | cons p rest ih =>
    obtain ⟨a, v⟩ := p
    by_cases hk : (a == k) = true
    · simp [hasKeyA, lookupA, hk]
    · have hk2 : (a == k) = false := Bool.eq_false_iff.mpr hk
      simp only [List.map_cons, hasKeyA, lookupA, hk2, Bool.false_eq_true,
        if_false]
      simpa [hasKeyA] using ih

theorem hasKeyA_foldl_key {α : Type} (g : Str → Str) (l : List (Str × α))
    (init : List (Str × α)) (k : Str) :
    hasKeyA (l.foldl (fun acc p => insertA acc (g p.1) p.2) init) k =
      (hasKeyA init k || l.any (fun p => g p.1 == k)) := by
  induction l generalizing init with
  | nil => simp
  | cons p rest ih =>
    simp only [List.foldl_cons, List.any_cons]
    rw [ih, hasKeyA_insertA]
    cases hasKeyA init k <;> cases hq : g p.1 == k <;> simp [hq]

theorem hasKeyA_foldl_val {α β : Type} (f : α → β) (l : List (Str × α))
    (init : List (Str × β)) (k : Str) :
    hasKeyA (l.foldl (fun acc p => insertA acc p.1 (f p.2)) init) k =
      (hasKeyA init k || l.any (fun p => p.1 == k)) := by
  induction l generalizing init with
  | nil => simp
  | cons p rest ih =>
    simp only [List.foldl_cons, List.any_cons]
    rw [ih, hasKeyA_insertA]
    cases hasKeyA init k <;> cases hq : p.1 == k <;> simp [hq]

theorem hasKeyA_buildFold (ms : List Model) (init : List (Str × JSchema))
    (k : Str) :
    hasKeyA (ms.foldl (fun acc m => insertA acc (cleanSchemaName m.name)
      (generateSchemaFromModel m)) init) k =
      (hasKeyA init k || ms.any (fun m => cleanSchemaName m.name == k)) := by
  induction ms generalizing init with
  | nil => simp
  | cons m rest ih =>
    simp only [List.foldl_cons, List.any_cons]
    rw [ih, hasKeyA_insertA]
    cases hasKeyA init k <;> cases hq : cleanSchemaName m.name == k <;>
      simp [hq]

/-- Every entry of the old-to-new rename mapping sends a name to its
cleaned form. -/
theorem o2n_good (pairs : List (Str × JSchema)) :
    ∀ q ∈ pairs.foldl (fun acc p => insertA acc p.1 (cleanSchemaName p.1))
      [], q.2 = cleanSchemaName q.1 := by
  have main : ∀ (l : List (Str × JSchema)) (acc : List (Str × Str)),
      (∀ q ∈ acc, q.2 = cleanSchemaName q.1) →
      ∀ q ∈ l.foldl (fun acc p => insertA acc p.1 (cleanSchemaName p.1)) acc,
        q.2 = cleanSchemaName q.1 := by
    intro l
    induction l with
    | nil => intro acc hacc; exact hacc
    | cons p rest ih =>
      intro acc hacc
      simp only [List.foldl_cons]
      apply ih
      intro q hq
      rcases mem_insertA _ _ _ _ hq with h1 | h1
      · exact hacc q h1
      · rw [h1]
  exact main pairs [] (by intro q hq; simp at hq)

/-- updateReference rewrites through any mapping whose entries all send a
name to its cleaned form exactly as through the empty mapping: the miss
branch also cleans the name. -/
theorem updateReference_good (ref : Str) (m : List (Str × Str))
    (hm : ∀ p ∈ m, p.2 = cleanSchemaName p.1) :
    updateReference ref m = updateReference ref [] := by
  unfold updateReference
  by_cases h1 : ref.isEmpty = true
  · simp [h1]
  · have h1f : ref.isEmpty = false := Bool.eq_false_iff.mpr h1
    by_cases h2 : strStarts refPre ref = true
    · simp only [h1f, Bool.false_eq_true, if_false, h2, Bool.not_true,
        lookupA]
      cases hl : lookupA m (dropStart refPre ref) with
      | none => rfl
      | some nn =>
        have h3 := hm _ (lookupA_mem _ _ _ hl)
        simp only at h3
        rw [h3]
    · have h2f : strStarts refPre ref = false := Bool.eq_false_iff.mpr h2
      simp [h1f, h2f]

mutual
theorem updSchema_good (m : List (Str × Str))
    (hm : ∀ p ∈ m, p.2 = cleanSchemaName p.1) :
    (s : JSchema) → updSchema m s = updSchema [] s
  | .mk t f r d props items rq addl e df ex => by
    unfold updSchema
    rw [updProps_good m hm props, updOSch_good m hm items,
      updAddl_good m hm addl, updateReference_good r m hm]
theorem updProps_good (m : List (Str × Str))
    (hm : ∀ p ∈ m, p.2 = cleanSchemaName p.1) :
    (p : SProps) → updProps m p = updProps [] p
  | .nil => rfl
  | .cons n s rest => by
    unfold updProps
    rw [updSchema_good m hm s, updProps_good m hm rest]
theorem updOSch_good (m : List (Str × Str))
    (hm : ∀ p ∈ m, p.2 = cleanSchemaName p.1) :
    (o : OSchema) → updOSch m o = updOSch [] o
  | .noSchema => rfl
  | .someSchema s => by
    unfold updOSch
    rw [updSchema_good m hm s]
theorem updAddl_good (m : List (Str × Str))
    (hm : ∀ p ∈ m, p.2 = cleanSchemaName p.1) :
    (a : AProp) → updAddl m a = updAddl [] a
  | .unset => rfl
  | .abool b => rfl
  | .aschema s => by
    unfold updAddl
    rw [updSchema_good m hm s]
end

theorem updOp_clean (m : List (Str × Str))
    (hm : ∀ p ∈ m, p.2 = cleanSchemaName p.1) : updOp m = updOp [] := by
  have h1 : updSchema m = updSchema [] := funext (updSchema_good m hm)
  funext op
  unfold updOp
  rw [h1]

theorem updPathItem_clean (m : List (Str × Str))
    (hm : ∀ p ∈ m, p.2 = cleanSchemaName p.1) :
    updPathItem m = updPathItem [] := by
  funext pi
  unfold updPathItem
  rw [updOp_clean m hm]

mutual
theorem remSchema_ext (v1 v2 : List Str)
    (hv : ∀ x, memS v1 x = memS v2 x) :
    (s : JSchema) → remSchema v1 s = remSchema v2 s
  | .mk t f r d props items rq addl e df ex => by
    unfold remSchema
    rw [hv (dropStart refPre r), remProps_ext v1 v2 hv props,
      remOSch_ext v1 v2 hv items, remAddl_ext v1 v2 hv addl]
theorem remProps_ext (v1 v2 : List Str)
    (hv : ∀ x, memS v1 x = memS v2 x) :
    (p : SProps) → remProps v1 p = remProps v2 p
  | .nil => rfl
  | .cons n s rest => by
    unfold remProps
    rw [remSchema_ext v1 v2 hv s, remProps_ext v1 v2 hv rest]
theorem remOSch_ext (v1 v2 : List Str)
    (hv : ∀ x, memS v1 x = memS v2 x) :
    (o : OSchema) → remOSch v1 o = remOSch v2 o
  | .noSchema => rfl
  | .someSchema s => by
    unfold remOSch
    rw [remSchema_ext v1 v2 hv s]
theorem remAddl_ext (v1 v2 : List Str)
    (hv : ∀ x, memS v1 x = memS v2 x) :
    (a : AProp) → remAddl v1 a = remAddl v2 a
  | .unset => rfl
  | .abool b => rfl
  | .aschema s => by
    unfold remAddl
    rw [remSchema_ext v1 v2 hv s]
end

theorem remPathItem_ext (v1 v2 : List Str)
    (hv : ∀ x, memS v1 x = memS v2 x) : remPathItem v1 = remPathItem v2 := by
  have h1 : remSchema v1 = remSchema v2 := funext (remSchema_ext v1 v2 hv)
  have h2 : remOp v1 = remOp v2 := by
    funext op
    unfold remOp
    rw [h1]
  funext pi
  unfold remPathItem
  rw [h2]

/-- The part of a document the idempotence claim can retain: equal path
maps, equal tag lists, and schema tables with the same key membership. -/
def specSim (a b : OpenAPISpec) : Prop :=
  a.paths = b.paths ∧ a.tags = b.tags ∧
  ∀ k, hasKeyA a.components.schemas k = hasKeyA b.components.schemas k

theorem condInsert_keys {α : Type} (S1 S2 : List (Str × α)) (k0 : Str)
    (v : α) (h : ∀ k, hasKeyA S1 k = hasKeyA S2 k) :
    ∀ k, hasKeyA (if hasKeyA S1 k0 then S1 else insertA S1 k0 v) k =
      hasKeyA (if hasKeyA S2 k0 then S2 else insertA S2 k0 v) k := by
  intro k
  rw [← h k0]
  by_cases hc : hasKeyA S1 k0 = true
  · simp only [hc, if_true]
    exact h k
  · have hc2 : hasKeyA S1 k0 = false := Bool.eq_false_iff.mpr hc
    simp only [hc2, Bool.false_eq_true, if_false, hasKeyA_insertA]
    rw [h k]

theorem buildSchemas_keys (ms1 ms2 : List Model) (hp : ms1.Perm ms2) :
    ∀ k, hasKeyA (buildSchemas ms1) k = hasKeyA (buildSchemas ms2) k := by
  have hbase : ∀ k, hasKeyA (ms1.foldl (fun acc m => insertA acc
      (cleanSchemaName m.name) (generateSchemaFromModel m)) []) k =
      hasKeyA (ms2.foldl (fun acc m => insertA acc (cleanSchemaName m.name)
        (generateSchemaFromModel m)) []) k := by
    intro k
    rw [hasKeyA_buildFold, hasKeyA_buildFold]
    congr 1
    exact any_ext_mem ms1 ms2 (fun x => hp.mem_iff) _
  have h1 := condInsert_keys _ _ "ErrorResponse".data errorResponseSchema
    hbase
  have h2 := condInsert_keys _ _ "StandardResponse".data
    standardResponseSchema h1
  exact h2

theorem specSim_clean (cfg : GenConfig) (rs : List Route)
    (ms1 ms2 : List Model) (hp : ms1.Perm ms2) :
    specSim (cleanAllSchemaNames (draftSpec cfg ms1 rs))
      (cleanAllSchemaNames (draftSpec cfg ms2 rs)) := by
  refine ⟨?_, rfl, ?_⟩
  · show (routeFold rs).paths.map (fun p => (p.1, updPathItem
        ((buildSchemas ms1).foldl (fun acc p => insertA acc p.1
          (cleanSchemaName p.1)) []) p.2)) =
      (routeFold rs).paths.map (fun p => (p.1, updPathItem
        ((buildSchemas ms2).foldl (fun acc p => insertA acc p.1
          (cleanSchemaName p.1)) []) p.2))
    rw [updPathItem_clean _ (o2n_good (buildSchemas ms1)),
      updPathItem_clean _ (o2n_good (buildSchemas ms2))]
  · intro k
    show hasKeyA (((buildSchemas ms1).foldl (fun acc p => insertA acc
        (cleanSchemaName p.1) p.2) []).map (fun p => (p.1, updSchema
        ((buildSchemas ms1).foldl (fun acc p => insertA acc p.1
          (cleanSchemaName p.1)) []) p.2))) k =
      hasKeyA (((buildSchemas ms2).foldl (fun acc p => insertA acc
        (cleanSchemaName p.1) p.2) []).map (fun p => (p.1, updSchema
        ((buildSchemas ms2).foldl (fun acc p => insertA acc p.1
          (cleanSchemaName p.1)) []) p.2))) k
    rw [hasKeyA_map_val _ (updSchema ((buildSchemas ms1).foldl
        (fun acc p => insertA acc p.1 (cleanSchemaName p.1)) [])),
      hasKeyA_map_val _ (updSchema ((buildSchemas ms2).foldl
        (fun acc p => insertA acc p.1 (cleanSchemaName p.1)) [])),
      hasKeyA_foldl_key cleanSchemaName (buildSchemas ms1) [] k,
      hasKeyA_foldl_key cleanSchemaName (buildSchemas ms2) [] k]
    simp only [hasKeyA, lookupA, Option.isSome_none, Bool.false_or]
    exact any_fst_ext _ _ (buildSchemas_keys ms1 ms2 hp)
      (fun n => cleanSchemaName n == k)

theorem specSim_validateSchemas (a b : OpenAPISpec) (h : specSim a b) :
    specSim (validateSchemas a) (validateSchemas b) := by
  obtain ⟨hpaths, htags, hk⟩ := h
  refine ⟨hpaths, htags, ?_⟩
  intro k
  show hasKeyA (a.components.schemas.foldl (fun acc p => insertA acc p.1
      (cleanSchemaF a.components.schemas p.2)) []) k =
    hasKeyA (b.components.schemas.foldl (fun acc p => insertA acc p.1
      (cleanSchemaF b.components.schemas p.2)) []) k
  rw [hasKeyA_foldl_val (cleanSchemaF a.components.schemas)
      a.components.schemas [] k,
    hasKeyA_foldl_val (cleanSchemaF b.components.schemas)
      b.components.schemas [] k]
  simp only [hasKeyA, lookupA, Option.isSome_none, Bool.false_or]
  exact any_fst_ext _ _ hk (fun n => n == k)

theorem specSim_validatePaths (a b : OpenAPISpec) (h : specSim a b) :
    specSim (validatePaths a) (validatePaths b) := by
  obtain ⟨hpaths, htags, hk⟩ := h
  refine ⟨?_, htags, hk⟩
  show a.paths.map (fun p => (p.1, validatePathItem p.1 p.2)) =
    b.paths.map (fun p => (p.1, validatePathItem p.1 p.2))
  rw [hpaths]

theorem specSim_remove (a b : OpenAPISpec) (h : specSim a b) :
    specSim (removeInvalidReferences a) (removeInvalidReferences b) := by
  obtain ⟨hpaths, htags, hk⟩ := h
  have hv : ∀ x, memS (a.components.schemas.map (fun p => p.1)) x =
      memS (b.components.schemas.map (fun p => p.1)) x := by
    intro x
    rw [memS_map_fst, memS_map_fst]
    exact hk x
  refine ⟨?_, htags, ?_⟩
  · show a.paths.map (fun p => (p.1, remPathItem
        (a.components.schemas.map (fun p => p.1)) p.2)) =
      b.paths.map (fun p => (p.1, remPathItem
        (b.components.schemas.map (fun p => p.1)) p.2))
    rw [hpaths, remPathItem_ext (a.components.schemas.map (fun p => p.1))
      (b.components.schemas.map (fun p => p.1)) hv]
  · intro k
    show hasKeyA (a.components.schemas.map (fun p => (p.1, remSchema
        (a.components.schemas.map (fun p => p.1)) p.2))) k =
      hasKeyA (b.components.schemas.map (fun p => (p.1, remSchema
        (b.components.schemas.map (fun p => p.1)) p.2))) k
    rw [hasKeyA_map_val _ (remSchema (a.components.schemas.map
        (fun p => p.1))),
      hasKeyA_map_val _ (remSchema (b.components.schemas.map
        (fun p => p.1)))]
    exact hk k

/-- C7 counterexample: model enumeration order is observable in the output.
Two orders (a permutation, as two runs over the same Go map may produce)
of two models whose cleaned names collide (User and sdk.User) leave
different schemas under the key User: the last-enumerated model wins, so
the property count of the User schema is 0 in one run and 1 in the
other. -/
theorem claim_C7_counterexample :
    List.Perm [c7ModelA, c7ModelB] [c7ModelB, c7ModelA] ∧
    sPropsLen ((lookupA (Generate c7Cfg [c7ModelA, c7ModelB]
        []).components.schemas "User".data).getD objectSchema).props = 0 ∧
    sPropsLen ((lookupA (Generate c7Cfg [c7ModelB, c7ModelA]
        []).components.schemas "User".data).getD objectSchema).props = 1 :=
  ⟨List.Perm.swap c7ModelB c7ModelA [], rfl, rfl⟩

/-- C7 (amended): two runs of Generate over the same Analysis, that is,
over any two enumeration orders of the model map, agree on the whole path
map (all operations), on the tag list, and on the key membership of the
components schema table; only the schema values can differ, and only when
two distinct model names clean to the same schema name. -/
theorem claim_C7_theorem (cfg : GenConfig) (rs : List Route)
    (ms1 ms2 : List Model) (hp : ms1.Perm ms2) :
    (Generate cfg ms1 rs).paths = (Generate cfg ms2 rs).paths ∧
    (Generate cfg ms1 rs).tags = (Generate cfg ms2 rs).tags ∧
    ∀ k, hasKeyA (Generate cfg ms1 rs).components.schemas k =
      hasKeyA (Generate cfg ms2 rs).components.schemas k :=
  specSim_remove _ _ (specSim_validatePaths _ _ (specSim_validateSchemas _ _
    (specSim_clean cfg rs ms1 ms2 hp)))

/-- C7 witness: the amended theorem at the concrete colliding-name
scenario. -/
theorem claim_C7_witness :
    (Generate c7Cfg [c7ModelA, c7ModelB] []).paths =
      (Generate c7Cfg [c7ModelB, c7ModelA] []).paths ∧
    (Generate c7Cfg [c7ModelA, c7ModelB] []).tags =
      (Generate c7Cfg [c7ModelB, c7ModelA] []).tags ∧
    hasKeyA (Generate c7Cfg [c7ModelA, c7ModelB] []).components.schemas
        "User".data =
      hasKeyA (Generate c7Cfg [c7ModelB, c7ModelA] []).components.schemas
        "User".data :=
  ⟨(claim_C7_theorem c7Cfg [] [c7ModelA, c7ModelB] [c7ModelB, c7ModelA]
      (List.Perm.swap c7ModelB c7ModelA [])).1,
   (claim_C7_theorem c7Cfg [] [c7ModelA, c7ModelB] [c7ModelB, c7ModelA]
      (List.Perm.swap c7ModelB c7ModelA [])).2.1,
   (claim_C7_theorem c7Cfg [] [c7ModelA, c7ModelB] [c7ModelB, c7ModelA]
      (List.Perm.swap c7ModelB c7ModelA [])).2.2 "User".data⟩

end OpenapiGen
